import Mathlib

/-!
# Deal-hunter: a shallow embedding of the result-normalization / filtering pipeline

This file embeds, in Lean 4, the parts of the `Deal-hunter` repository that the
verified claims are about:

* `BasePlatform._clean_price`, `BasePlatform._apply_filters` and
  `EbayPlatform._apply_ebay_filters` (src/platform_modules/base_platform.py,
  ebay_module.py);
* the four adapter `search` loops (ebay_module.py, amazon_module.py,
  walmart_module.py, bestbuy_module.py), over a structured model of a fetched
  page (the raw text of the response together with the listing fragments that
  the CSS selectors / JSON navigation would produce on it);
* `database_manager.save_results` over a list model of the SQLite `listings`
  table with its UNIQUE(link) constraint;
* `main_shopper.run_search_cycle`'s per-adapter exception isolation;
* `input_processor.read_input_file` over a small JSON value model.

Numeric values (prices, ratings) are modelled as `ℚ`; the decimal strings the
code parses denote exact decimal rationals.  Python text is modelled as
`String` / `List Char`; Python's `str.split`, `str.strip`, `str.replace`,
`float()` on digit/dot strings, and truthiness of strings are given explicit
executable models below (the standard decimal subset of `float()`; exotic
inputs such as `"inf"`, exponents or numeric-literal underscores do not occur
in the claims).
-/

set_option autoImplicit false

namespace DealHunter

/-! ## Python text primitives -/

/-- Python `str.strip()` (no arguments): drop leading and trailing whitespace. -/
def pyStrip (cs : List Char) : List Char :=
  ((cs.dropWhile Char.isWhitespace).reverse.dropWhile Char.isWhitespace).reverse

/-- `pyStrip` on `String`s. -/
def pyStripS (s : String) : String :=
  String.mk (pyStrip s.data)

/-- Does `pat` lead (start) the list `cs`?  (Model of Python's
`cs.startswith(pat)` on character lists.) -/
def leadsWith : List Char → List Char → Bool
  | [], _ => true
  | _ :: _, [] => false
  | a :: as, b :: bs => a == b && leadsWith as bs

/-- Does `pat` occur somewhere inside `hay`?  (Model of Python's
`pat in hay` substring test.) -/
def occursIn (pat : List Char) : List Char → Bool
  | [] => leadsWith pat []
  | c :: rest => leadsWith pat (c :: rest) || occursIn pat rest

/-- `occursIn` on `String`s. -/
def occursInS (pat hay : String) : Bool :=
  occursIn pat.data hay.data

/-- Python `s.startswith(pre)`. -/
def pyStartsWith (s pre : String) : Bool :=
  leadsWith pre.data s.data

/-- Python `str.lower()` (restricted to the characters that occur here). -/
def pyLower (cs : List Char) : List Char :=
  cs.map Char.toLower

/-- The scan behind `pySplit`, structurally recursive on a fuel argument so
that it evaluates by kernel reduction; the fuel never runs out when it starts
at the length of the scanned list. -/
def pySplitF (sep : List Char) : Nat → List Char → List (List Char)
  | _, [] => [[]]
  | 0, cs => [cs]
  | fuel + 1, c :: rest =>
    if leadsWith sep (c :: rest) then
      [] :: pySplitF sep fuel (rest.drop (sep.length - 1))
    else
      match pySplitF sep fuel rest with
      | [] => [[c]]
      | h :: t => (c :: h) :: t

/-- Python `hay.split(sep)` for a separator `sep` (Python requires `sep ≠ ""`):
split at each leftmost non-overlapping occurrence of `sep`; always returns at
least one piece. -/
def pySplit (sep cs : List Char) : List (List Char) :=
  pySplitF sep cs.length cs

/-- `pySplit` on `String`s. -/
def pySplitS (sep s : String) : List String :=
  (pySplit sep.data s.data).map String.mk

/-- Helper for `pyWords`: scan with the (reversed) current word accumulated. -/
def pyWordsAux (cur : List Char) : List Char → List (List Char)
  | [] => if cur.isEmpty then [] else [cur.reverse]
  | c :: rest =>
    if c.isWhitespace then
      if cur.isEmpty then pyWordsAux [] rest
      else cur.reverse :: pyWordsAux [] rest
    else pyWordsAux (c :: cur) rest

/-- Python `str.split()` with no argument: the maximal whitespace-free runs. -/
def pyWords (cs : List Char) : List (List Char) :=
  pyWordsAux [] cs

/-- Python `str.replace(old, new)` with `new = ""`: glue the `pySplit` pieces
back together, i.e. delete every non-overlapping occurrence of `old`. -/
def pyDeleteAll (old : List Char) (cs : List Char) : List Char :=
  (pySplit old cs).foldr (· ++ ·) []

/-- `pyDeleteAll` on `String`s (model of `s.replace(old, '')`). -/
def pyDeleteAllS (old s : String) : String :=
  String.mk (pyDeleteAll old.data s.data)

/-! ## `float()` and `_clean_price` -/

/-- The numeric value of a list of decimal digits, most significant first
(the accumulator form used to check concrete inputs). -/
def digitsToNat (cs : List Char) : Nat :=
  cs.foldl (fun a c => a * 10 + (c.toNat - 48)) 0

/-- Python `float(s)` on a string `s` made only of digits and `'.'` characters
(the shape `_clean_price` produces): defined iff at most one `'.'` and at
least one digit; the value is the usual decimal reading. -/
def floatOfCleaned (cs : List Char) : Option ℚ :=
  match cs.dropWhile (fun c => c ≠ '.') with
  | [] =>
    if cs.any Char.isDigit then some (digitsToNat (cs.takeWhile (fun c => c ≠ '.')))
    else none
  | _ :: frac =>
    if frac.contains '.' then none
    else if (cs.takeWhile (fun c => c ≠ '.')).isEmpty && frac.isEmpty then none
    else
      some (mkRat
        (digitsToNat (cs.takeWhile (fun c => c ≠ '.')) * 10 ^ frac.length + digitsToNat frac)
        (10 ^ frac.length))

/-- `BasePlatform._clean_price` on a string argument: `None` for a falsy
(empty) string; otherwise keep only digits and `'.'` characters of the
stripped string and apply `float()`, with a parse failure caught as `None`. -/
def cleanPrice (s : String) : Option ℚ :=
  if s = "" then none
  else if ((pyStrip s.data).filter (fun c => c.isDigit || c == '.')).isEmpty then none
  else floatOfCleaned ((pyStrip s.data).filter (fun c => c.isDigit || c == '.'))

/-- `BasePlatform._clean_price` on an optional argument (`None` is falsy). -/
def cleanPriceOpt : Option String → Option ℚ
  | none => none
  | some s => cleanPrice s

/-! ## Item requests, result dictionaries, filters -/

/-- An item request as produced by `input_processor.read_input_file`:
`{'name': ..., 'max_price': float, 'min_seller_rating': float}`. -/
structure ItemReq where
  name : String
  maxPrice : ℚ
  minSellerRating : ℚ
  deriving Repr, DecidableEq

/-- The result dictionary an adapter builds:
`{'platform', 'item', 'title', 'price', 'seller_rating', 'link'}`.
`price` and `link` are `Option`s because `_apply_filters` and
`save_results` are written against dictionaries whose entries may be `None`;
the adapters only construct them with `price` and `link` present. -/
structure ResultDict where
  platform : String
  item : String
  title : String
  price : Option ℚ
  sellerRating : Option ℚ
  link : Option String
  deriving Repr, DecidableEq

/-- `BasePlatform._apply_filters`: reject when the price is absent or exceeds
the item's `max_price`. -/
def applyFilters (r : ResultDict) (it : ItemReq) : Bool :=
  match r.price with
  | none => false
  | some p => !(p > it.maxPrice)

/-- `EbayPlatform._apply_ebay_filters`: when `min_seller_rating > 0`, reject
when the seller rating is absent or below the threshold. -/
def applyEbayFilters (r : ResultDict) (it : ItemReq) : Bool :=
  if it.minSellerRating > 0 then
    match r.sellerRating with
    | none => false
    | some sr => !(sr < it.minSellerRating)
  else
    true

/-! ## The eBay adapter (`EbayPlatform.search`)

A fetched page is modelled by the outcome of the fetch/parse steps together
with the listing fragments that `soup.select("li.s-item")` yields on it; each
fragment carries the (already `strip=True`-stripped) texts / attributes that
the sub-selectors would extract, `none` when the sub-element is absent, and a
`broken` flag meaning that an unexpected exception is raised while processing
this listing (the loop body's `except Exception` catches it). -/

/-- One `li.s-item` fragment, as seen through the eBay sub-selectors. -/
structure EbayRaw where
  titleEl : Option String
  linkText : Option String
  linkHref : Option String
  priceEl : Option String
  sellerText : Option String
  broken : Bool
  deriving Repr, DecidableEq

/-- The eBay title computation: `"N/A"` unless the title element is present;
empty title text falls back to the link element's text; then
`.replace('New Listing', '').strip()`. -/
def ebayTitle (L : EbayRaw) : String :=
  match L.titleEl with
  | none => "N/A"
  | some t0 =>
    let t1 := if t0 = "" then (match L.linkText with | some lt => lt | none => t0) else t0
    pyStripS (pyDeleteAllS "New Listing" t1)

/-- The eBay seller-rating parse: requires a `'%'` in the text, takes the last
whitespace-separated word before the first `'%'`, keeps digits and dots, and
parses; every failure (IndexError, ValueError) is caught and yields `none`. -/
def parseEbayRating (t : String) : Option ℚ :=
  if occursIn ['%'] t.data then
    match (pyWords ((pySplit ['%'] t.data).headD [])).getLast? with
    | none => none
    | some w =>
      let cleaned := w.filter (fun c => c.isDigit || c == '.')
      if cleaned.isEmpty then none
      else floatOfCleaned cleaned
  else none

/-- `price_str`: the price element's text, `""` when the element is absent. -/
def ebayPriceText (L : EbayRaw) : String :=
  match L.priceEl with | some p => p | none => ""

/-- The eBay price extraction: `_clean_price(price_str.split(' to ')[0])` —
the cleaned text before the first `' to '` separator. -/
def ebayExtractPrice (L : EbayRaw) : Option ℚ :=
  cleanPrice (String.mk ((pySplit " to ".data (ebayPriceText L).data).headD []))

/-- The eBay seller-rating extraction: absent element means no rating. -/
def ebaySellerRating (L : EbayRaw) : Option ℚ :=
  match L.sellerText with | none => none | some t => parseEbayRating t

/-- The eBay per-listing body (without the surrounding `try`): extract title,
price (lower bound of a `' to '` range), link and rating, skip when title is
the `"N/A"` sentinel or price or link is missing, then apply both filters. -/
def ebayProcessCore (it : ItemReq) (L : EbayRaw) : Option ResultDict :=
  match ebayExtractPrice L, L.linkHref with
  | some p, some l =>
    if ebayTitle L = "N/A" then none
    else if applyFilters ⟨"eBay", it.name, ebayTitle L, some p, ebaySellerRating L, some l⟩ it
        && applyEbayFilters ⟨"eBay", it.name, ebayTitle L, some p, ebaySellerRating L, some l⟩ it
    then some ⟨"eBay", it.name, ebayTitle L, some p, ebaySellerRating L, some l⟩
    else none
  | _, _ => none

/-- The eBay per-listing body with its exception behaviour explicit: a broken
fragment raises. -/
def ebayProcessE (it : ItemReq) (L : EbayRaw) : Except Unit (Option ResultDict) :=
  if L.broken then .error () else .ok (ebayProcessCore it L)

/-- The eBay per-listing step as the loop runs it: the `except Exception`
around the body turns a raised exception into skipping the listing. -/
def ebayProcess (it : ItemReq) (L : EbayRaw) : Option ResultDict :=
  match ebayProcessE it L with
  | .error _ => none
  | .ok o => o

/-- The fetched eBay page: fetch/parse outcomes plus the selected fragments. -/
structure EbayPage where
  fetchFailed : Bool
  parseFailed : Bool
  listings : List EbayRaw
  deriving Repr, DecidableEq

/-- `EbayPlatform.search`. -/
def ebaySearch (it : ItemReq) (pg : EbayPage) : List ResultDict :=
  if pg.fetchFailed then []
  else if pg.parseFailed then []
  else pg.listings.filterMap (ebayProcess it)

/-! ## The Amazon adapter (`AmazonPlatform.search`) -/

/-- One `s-search-result` fragment, through the Amazon sub-selectors. -/
structure AmazonRaw where
  sponsored : Bool
  titleEl : Option String
  linkHref : Option String
  priceWhole : Option String
  priceFraction : Option String
  priceOffscreen : Option String
  broken : Bool
  deriving Repr, DecidableEq

/-- Amazon link resolution: join a `'/'`-prefixed href to the origin, pass an
`http`-prefixed href through, anything else stays unresolved (`None`). -/
def amazonResolveLink (href : String) : Option String :=
  if pyStartsWith href "/" then some ("https://www.amazon.com" ++ href)
  else if pyStartsWith href "http" then some href
  else none

/-- The Amazon title extraction (`"N/A"` sentinel when absent). -/
def amazonExtractTitle (L : AmazonRaw) : String :=
  match L.titleEl with | some t => t | none => "N/A"

/-- The Amazon link extraction and resolution. -/
def amazonExtractLink (L : AmazonRaw) : Option String :=
  match L.linkHref with | some href => amazonResolveLink href | none => none

/-- The Amazon price extraction: whole+fraction pair when both sub-elements
are present, else the `a-offscreen` fallback. -/
def amazonExtractPrice (L : AmazonRaw) : Option ℚ :=
  match L.priceWhole, L.priceFraction with
  | some w, some f => cleanPrice (w ++ f)
  | _, _ => cleanPriceOpt L.priceOffscreen

/-- The Amazon per-listing body (without the surrounding `try`). -/
def amazonProcessCore (it : ItemReq) (L : AmazonRaw) : Option ResultDict :=
  if L.sponsored then none
  else
    match amazonExtractPrice L, amazonExtractLink L with
    | some p, some l =>
      if amazonExtractTitle L = "N/A" then none
      else if applyFilters ⟨"Amazon", it.name, amazonExtractTitle L, some p, none, some l⟩ it
      then some ⟨"Amazon", it.name, amazonExtractTitle L, some p, none, some l⟩
      else none
    | _, _ => none

/-- The Amazon per-listing body with its exception behaviour explicit. -/
def amazonProcessE (it : ItemReq) (L : AmazonRaw) : Except Unit (Option ResultDict) :=
  if L.broken then .error () else .ok (amazonProcessCore it L)

/-- The Amazon per-listing step as the loop runs it (exception caught). -/
def amazonProcess (it : ItemReq) (L : AmazonRaw) : Option ResultDict :=
  match amazonProcessE it L with
  | .error _ => none
  | .ok o => o

/-- Amazon block detection:
`"captcha" in text.lower() or "robot check" in text.lower()`. -/
def amazonBlocked (text : String) : Bool :=
  occursIn "captcha".data (pyLower text.data) ||
    occursIn "robot check".data (pyLower text.data)

/-- The fetched Amazon page: the raw response text (used for block
detection) together with the selected fragments. -/
structure AmazonPage where
  fetchFailed : Bool
  text : String
  parseFailed : Bool
  listings : List AmazonRaw
  deriving Repr, DecidableEq

/-- `AmazonPlatform.search`. -/
def amazonSearch (it : ItemReq) (pg : AmazonPage) : List ResultDict :=
  if pg.fetchFailed then []
  else if amazonBlocked pg.text then []
  else if pg.parseFailed then []
  else pg.listings.filterMap (amazonProcess it)

/-! ## The Walmart adapter (`WalmartPlatform.search`) -/

/-- One item of the embedded-JSON `items` array, through the `.get` chain:
`title` (default `''`), `primaryOffer.offerPrice` / `minPrice` (rendered as
the text `str()` gives), `canonicalUrl`. -/
structure WalmartJsonItem where
  title : String
  offerPrice : Option String
  minPrice : Option String
  canonicalUrl : Option String
  broken : Bool
  deriving Repr, DecidableEq

/-- `offerPrice or minPrice`: Python `or` falls back on a falsy (absent or
empty) `offerPrice`. -/
def walmartJsonPriceArg (d : WalmartJsonItem) : Option String :=
  match d.offerPrice with
  | some s => if s = "" then d.minPrice else some s
  | none => d.minPrice

/-- The Walmart JSON link: joined to the origin when `canonicalUrl` is truthy,
`None` otherwise. -/
def walmartJsonLink (d : WalmartJsonItem) : Option String :=
  match d.canonicalUrl with
  | some p => if p = "" then none else some ("https://www.walmart.com" ++ p)
  | none => none

/-- The Walmart JSON per-item body (without the surrounding `try`):
`offerPrice or minPrice`, link joined to the origin when `canonicalUrl` is
truthy, skip when title or link is falsy or price is `None`, then the price
filter. -/
def walmartJsonProcessCore (it : ItemReq) (d : WalmartJsonItem) : Option ResultDict :=
  match cleanPriceOpt (walmartJsonPriceArg d), walmartJsonLink d with
  | some p, some l =>
    if pyStripS d.title = "" then none
    else if applyFilters ⟨"Walmart", it.name, pyStripS d.title, some p, none, some l⟩ it
    then some ⟨"Walmart", it.name, pyStripS d.title, some p, none, some l⟩
    else none
  | _, _ => none

/-- The Walmart JSON per-item body with its exception behaviour explicit. -/
def walmartJsonProcessE (it : ItemReq) (d : WalmartJsonItem) :
    Except Unit (Option ResultDict) :=
  if d.broken then .error () else .ok (walmartJsonProcessCore it d)

/-- The Walmart JSON per-item step as the loop runs it (exception caught). -/
def walmartJsonProcess (it : ItemReq) (d : WalmartJsonItem) : Option ResultDict :=
  match walmartJsonProcessE it d with
  | .error _ => none
  | .ok o => o

/-- One `application/json` script tag: whether `'searchContent'` occurs in its
text, whether `json.loads` succeeds, and the
`searchContent.preso.items` array the navigation yields (empty when the path
is absent). -/
structure WalmartScript where
  hasSearchContent : Bool
  jsonOk : Bool
  items : List WalmartJsonItem
  deriving Repr, DecidableEq

/-- The script loop of `WalmartPlatform.search`: the first script that
mentions `searchContent`, parses, and yields a non-empty `items` array wins
(`found_json = True; break`); every other script is skipped. -/
def walmartFirstScriptItems : List WalmartScript → Option (List WalmartJsonItem)
  | [] => none
  | sc :: rest =>
    if sc.hasSearchContent && sc.jsonOk && !sc.items.isEmpty then some sc.items
    else walmartFirstScriptItems rest

/-- One Walmart HTML fallback fragment (`div[data-item-id]`). -/
structure WalmartRaw where
  titleEl : Option String
  priceEl : Option String
  linkHref : Option String
  broken : Bool
  deriving Repr, DecidableEq

/-- Walmart HTML link resolution: join a `'/'`-prefixed href to the origin,
pass anything else through unchanged. -/
def walmartHtmlResolveLink (href : String) : String :=
  if pyStartsWith href "/" then "https://www.walmart.com" ++ href else href

/-- The Walmart HTML title extraction (`"N/A"` sentinel when absent). -/
def walmartHtmlTitle (L : WalmartRaw) : String :=
  match L.titleEl with | some t => t | none => "N/A"

/-- The Walmart HTML link extraction and resolution. -/
def walmartHtmlLink (L : WalmartRaw) : Option String :=
  match L.linkHref with
  | some href => some (walmartHtmlResolveLink href)
  | none => none

/-- The Walmart HTML per-listing body (without the surrounding `try`). -/
def walmartHtmlProcessCore (it : ItemReq) (L : WalmartRaw) : Option ResultDict :=
  match cleanPriceOpt L.priceEl, walmartHtmlLink L with
  | some p, some l =>
    if walmartHtmlTitle L = "N/A" then none
    else if applyFilters ⟨"Walmart", it.name, walmartHtmlTitle L, some p, none, some l⟩ it
    then some ⟨"Walmart", it.name, walmartHtmlTitle L, some p, none, some l⟩
    else none
  | _, _ => none

/-- The Walmart HTML per-listing body with its exception behaviour explicit. -/
def walmartHtmlProcessE (it : ItemReq) (L : WalmartRaw) :
    Except Unit (Option ResultDict) :=
  if L.broken then .error () else .ok (walmartHtmlProcessCore it L)

/-- The Walmart HTML per-listing step as the loop runs it. -/
def walmartHtmlProcess (it : ItemReq) (L : WalmartRaw) : Option ResultDict :=
  match walmartHtmlProcessE it L with
  | .error _ => none
  | .ok o => o

/-- Walmart block detection:
`"error" in response.url.lower() or response.status_code != 200`. -/
def walmartBlocked (url : String) (status : Nat) : Bool :=
  occursIn "error".data (pyLower url.data) || status ≠ 200

/-- The fetched Walmart page. -/
structure WalmartPage where
  fetchFailed : Bool
  url : String
  status : Nat
  parseFailed : Bool
  scripts : List WalmartScript
  listings : List WalmartRaw
  deriving Repr, DecidableEq

/-- `WalmartPlatform.search`: block check, then the embedded-JSON strategy,
falling back to HTML scraping when no script qualifies. -/
def walmartSearch (it : ItemReq) (pg : WalmartPage) : List ResultDict :=
  if pg.fetchFailed then []
  else if walmartBlocked pg.url pg.status then []
  else if pg.parseFailed then []
  else
    match walmartFirstScriptItems pg.scripts with
    | some items => items.filterMap (walmartJsonProcess it)
    | none => pg.listings.filterMap (walmartHtmlProcess it)

/-! ## The Best Buy adapter (`BestbuyPlatform.search`) -/

/-- One entry of a parsed LD+JSON `items_data` array, after unwrapping a
possible `item` wrapper: its `@type == 'Product'` flag and the `name`,
`offers.price` and `url` fields the code reads. -/
structure BBJsonProduct where
  isProduct : Bool
  name : Option String
  offerPrice : Option String
  url : Option String
  broken : Bool
  deriving Repr, DecidableEq

/-- Best Buy JSON link absolutization (applied to a truthy link): pass an
`http`-prefixed link through, otherwise join to the origin, inserting a `/`
when the link does not start with one. -/
def bbJsonResolveLink (l : String) : String :=
  if !(pyStartsWith l "http") then
    if pyStartsWith l "/" then "https://www.bestbuy.com" ++ l
    else "https://www.bestbuy.com/" ++ l
  else l

/-- The Best Buy LD+JSON per-product body (without the surrounding `try`). -/
def bbJsonProcessCore (it : ItemReq) (d : BBJsonProduct) : Option ResultDict :=
  if !d.isProduct then none
  else
    match d.name, cleanPriceOpt d.offerPrice, d.url with
    | some t, some p, some l =>
      if t = "" || l = "" then none
      else if applyFilters ⟨"BestBuy", it.name, t, some p, none, some (bbJsonResolveLink l)⟩ it
      then some ⟨"BestBuy", it.name, t, some p, none, some (bbJsonResolveLink l)⟩
      else none
    | _, _, _ => none

/-- The Best Buy LD+JSON per-product body with exceptions explicit. -/
def bbJsonProcessE (it : ItemReq) (d : BBJsonProduct) :
    Except Unit (Option ResultDict) :=
  if d.broken then .error () else .ok (bbJsonProcessCore it d)

/-- The Best Buy LD+JSON per-product step as the loop runs it. -/
def bbJsonProcess (it : ItemReq) (d : BBJsonProduct) : Option ResultDict :=
  match bbJsonProcessE it d with
  | .error _ => none
  | .ok o => o

/-- One `ld+json` script tag: whether `json.loads` succeeds and the
`items_data` array computed from its shape (empty when the shape is not a
list / ItemList). -/
structure BBScript where
  jsonOk : Bool
  items : List BBJsonProduct
  deriving Repr, DecidableEq

/-- The results one script contributes: only a parsed script with a non-empty
`items_data` is processed (there is no `break`, so all such scripts
contribute). -/
def bbScriptResults (it : ItemReq) (sc : BBScript) : List ResultDict :=
  if sc.jsonOk && !sc.items.isEmpty then sc.items.filterMap (bbJsonProcess it)
  else []

/-- `found_json`: set when any script parsed with a non-empty `items_data`. -/
def bbFoundJson (scripts : List BBScript) : Bool :=
  scripts.any (fun sc => sc.jsonOk && !sc.items.isEmpty)

/-- One Best Buy HTML fallback fragment (`li.sku-item`). -/
structure BBRaw where
  titleEl : Option String
  priceEl : Option String
  linkHref : Option String
  broken : Bool
  deriving Repr, DecidableEq

/-- Best Buy HTML link resolution: join every href not starting with `http`
to the origin (no separator inserted), pass the rest through. -/
def bbHtmlResolveLink (href : String) : String :=
  if !(pyStartsWith href "http") then "https://www.bestbuy.com" ++ href else href

/-- The Best Buy HTML title extraction (`"N/A"` sentinel when absent). -/
def bbHtmlTitle (L : BBRaw) : String :=
  match L.titleEl with | some t => t | none => "N/A"

/-- The Best Buy HTML link extraction and resolution. -/
def bbHtmlLink (L : BBRaw) : Option String :=
  match L.linkHref with
  | some href => some (bbHtmlResolveLink href)
  | none => none

/-- The Best Buy HTML per-listing body (without the surrounding `try`). -/
def bbHtmlProcessCore (it : ItemReq) (L : BBRaw) : Option ResultDict :=
  match cleanPriceOpt L.priceEl, bbHtmlLink L with
  | some p, some l =>
    if bbHtmlTitle L = "N/A" then none
    else if applyFilters ⟨"BestBuy", it.name, bbHtmlTitle L, some p, none, some l⟩ it
    then some ⟨"BestBuy", it.name, bbHtmlTitle L, some p, none, some l⟩
    else none
  | _, _ => none

/-- The Best Buy HTML per-listing body with exceptions explicit. -/
def bbHtmlProcessE (it : ItemReq) (L : BBRaw) : Except Unit (Option ResultDict) :=
  if L.broken then .error () else .ok (bbHtmlProcessCore it L)

/-- The Best Buy HTML per-listing step as the loop runs it. -/
def bbHtmlProcess (it : ItemReq) (L : BBRaw) : Option ResultDict :=
  match bbHtmlProcessE it L with
  | .error _ => none
  | .ok o => o

/-- The fetched Best Buy page. -/
structure BBPage where
  fetchFailed : Bool
  text : String
  parseFailed : Bool
  scripts : List BBScript
  listings : List BBRaw
  deriving Repr, DecidableEq

/-- `BestbuyPlatform.search`: `"Access Denied"` block check, then the LD+JSON
strategy over every script, falling back to HTML scraping when no script
contributed. -/
def bbSearch (it : ItemReq) (pg : BBPage) : List ResultDict :=
  if pg.fetchFailed then []
  else if occursInS "Access Denied" pg.text then []
  else if pg.parseFailed then []
  else if bbFoundJson pg.scripts then
    ((pg.scripts.map (bbScriptResults it)).flatten)
  else pg.listings.filterMap (bbHtmlProcess it)

/-! ## `database_manager.save_results`

The SQLite `listings` table is modelled as a list of rows in insertion order;
`INSERT OR IGNORE` with the `UNIQUE` constraint on `link` inserts unless the
(non-NULL) link is already present — SQLite treats NULLs as pairwise distinct,
so a `None` link never conflicts. -/

/-- One stored row of the `listings` table (the inserted columns). -/
structure DBRow where
  platform : String
  searchTerm : String
  title : String
  price : Option ℚ
  sellerRating : Option ℚ
  link : Option String
  deriving Repr, DecidableEq

/-- The tuple `save_results` binds for one result dictionary. -/
def rowOf (r : ResultDict) : DBRow :=
  ⟨r.platform, r.item, r.title, r.price, r.sellerRating, r.link⟩

/-- Does inserting a row with this link violate `UNIQUE(link)`? -/
def linkConflicts (db : List DBRow) : Option String → Bool
  | none => false
  | some l => db.any (fun row => row.link == some l)

/-- Python truthiness of `result.get('link')`. -/
def linkTruthy : Option String → Bool
  | none => false
  | some l => !(l == "")

/-- The state threaded through the insert loop. -/
structure SaveOutcome where
  db : List DBRow
  inserted : ℕ
  ignored : ℕ
  deriving Repr, DecidableEq

/-- One iteration of the insert loop: execute `INSERT OR IGNORE`; on
`rowcount > 0` count an insert, otherwise count an ignore only when the
result's link is truthy (else only a warning is logged). -/
def saveStep (acc : SaveOutcome) (r : ResultDict) : SaveOutcome :=
  if linkConflicts acc.db r.link then
    if linkTruthy r.link then ⟨acc.db, acc.inserted, acc.ignored + 1⟩
    else ⟨acc.db, acc.inserted, acc.ignored⟩
  else
    ⟨acc.db ++ [rowOf r], acc.inserted + 1, acc.ignored⟩

/-- `database_manager.save_results`: an empty (falsy) input returns before
touching the database; otherwise every result is inserted in order. -/
def saveResults (db : List DBRow) (rs : List ResultDict) : SaveOutcome :=
  if rs.isEmpty then ⟨db, 0, 0⟩
  else rs.foldl saveStep ⟨db, 0, 0⟩

/-! ## `main_shopper.run_search_cycle`

An adapter is a named search function that may raise; the orchestrator's
`try/except` around `platform_obj.search(item)` turns a raised exception into
an empty contribution for that adapter/item pair. -/

/-- An adapter's `search`, with its possible exception explicit. -/
def AdapterFun : Type :=
  ItemReq → Except Unit (List ResultDict)

/-- The contribution of one adapter for one item, as the orchestrator's
`try/except` sees it. -/
def adapterContribution (f : AdapterFun) (it : ItemReq) : List ResultDict :=
  match f it with
  | .ok rs => rs
  | .error _ => []

/-- `all_results`: for each item, for each adapter (registry order), extend
with that adapter's results, a failure contributing nothing. -/
def cycleAggregate (adapters : List (String × AdapterFun)) (items : List ItemReq) :
    List ResultDict :=
  (items.map (fun it =>
    (adapters.map (fun a => adapterContribution a.2 it)).flatten)).flatten

/-- `run_search_cycle` up to the persistence boundary: read items (already
parsed), return early when none, else hand the aggregate to `save_results`. -/
def runSearchCycle (db : List DBRow) (adapters : List (String × AdapterFun))
    (items : List ItemReq) : List DBRow :=
  if items.isEmpty then db
  else (saveResults db (cycleAggregate adapters items)).db

/-! ## `input_processor.read_input_file`

A small JSON value model; `float()` on a JSON value follows Python: numbers
and booleans coerce, strings parse by the standard decimal grammar
(modelled below without exponents / `inf` / `nan` / digit underscores, which
do not occur in the claims), everything else raises `TypeError`. -/

/-- JSON values. -/
inductive JVal where
  | jnull
  | jbool (b : Bool)
  | jnum (q : ℚ)
  | jstr (s : String)
  | jarr (xs : List JVal)
  | jobj (kvs : List (String × JVal))

/-- `float()` on a string: strip whitespace, optional sign, then a decimal
digit/dot literal (at most one dot, at least one digit). -/
def pyFloatOfString (s : String) : Option ℚ :=
  let core : List Char → Option ℚ := fun cs =>
    if cs.all (fun c => c.isDigit || c == '.') then floatOfCleaned cs else none
  match pyStrip s.data with
  | '+' :: rest => core rest
  | '-' :: rest => (core rest).map Neg.neg
  | t => core t

/-- `float()` on a JSON value. -/
def pyFloat : JVal → Option ℚ
  | .jnum q => some q
  | .jbool b => some (if b then 1 else 0)
  | .jstr s => pyFloatOfString s
  | _ => none

/-- An item record as `read_input_file` returns it: the original `name` value
plus the coerced `max_price` and `min_seller_rating`. -/
structure ParsedItem where
  name : JVal
  maxPrice : ℚ
  minSellerRating : ℚ

/-- The coerced `min_seller_rating`: `setdefault` gives `0` when the key is
missing, and a failing `float()` coercion falls back to `0.0`. -/
def ratingOf (kvs : List (String × JVal)) : ℚ :=
  match pyFloat ((List.lookup "min_seller_rating" kvs).getD (JVal.jnum 0)) with
  | some r => r
  | none => 0

/-- The per-record body for a JSON object: require `name` and `max_price`
keys, skip the record when `float(max_price)` raises, and attach the coerced
rating. -/
def validateItem (kvs : List (String × JVal)) : Option ParsedItem :=
  match List.lookup "name" kvs, List.lookup "max_price" kvs with
  | some nameV, some mpV =>
    match pyFloat mpV with
    | none => none
    | some mp => some ⟨nameV, mp, ratingOf kvs⟩
  | _, _ => none

/-- The per-record body for an arbitrary JSON element: non-objects are
skipped as invalid item structures. -/
def validateEntry : JVal → Option ParsedItem
  | .jobj kvs => validateItem kvs
  | _ => none

/-- The input file as `read_input_file` observes it: absent, blank,
JSON-undecodable, or a parsed JSON value. -/
inductive InputFile where
  | missing
  | emptyFile
  | badJson
  | parsed (j : JVal)

/-- `input_processor.read_input_file`. -/
def readInputFile : InputFile → List ParsedItem
  | .missing => []
  | .emptyFile => []
  | .badJson => []
  | .parsed j =>
    match j with
    | .jarr xs => xs.filterMap validateEntry
    | _ => []

/-- The eBay pass predicate as `EbayPlatform.search` combines it:
`_apply_filters(result, item) and _apply_ebay_filters(result, item)`. -/
def ebayPasses (r : ResultDict) (it : ItemReq) : Bool :=
  applyFilters r it && applyEbayFilters r it

/-- Is a row with (non-NULL) link `l` stored? -/
def hasLink (db : List DBRow) (l : String) : Bool :=
  db.any (fun row => row.link == some l)

/-! ## Helper lemmas -/

theorem digitsToNat_cast_nonneg (cs : List Char) : (0 : ℚ) ≤ (digitsToNat cs : ℚ) := by
  exact_mod_cast Nat.zero_le _

theorem floatOfCleaned_nonneg {cs : List Char} {q : ℚ}
    (h : floatOfCleaned cs = some q) : 0 ≤ q := by
  unfold floatOfCleaned at h
  split at h
  · split at h
    · have := Option.some.inj h
      subst this
      exact digitsToNat_cast_nonneg _
    · exact absurd h (by simp)
  · split at h
    · exact absurd h (by simp)
    · split at h
      · exact absurd h (by simp)
      · have := Option.some.inj h
        subst this
        rw [Rat.mkRat_eq_div]
        positivity

theorem cleanPrice_nonneg {s : String} {q : ℚ} (h : cleanPrice s = some q) : 0 ≤ q := by
  unfold cleanPrice at h
  split at h
  · exact absurd h (by simp)
  · split at h
    · exact absurd h (by simp)
    · exact floatOfCleaned_nonneg h

theorem cleanPriceOpt_nonneg {o : Option String} {q : ℚ}
    (h : cleanPriceOpt o = some q) : 0 ≤ q := by
  cases o with
  | none => exact absurd h (by simp [cleanPriceOpt])
  | some s => exact cleanPrice_nonneg h

theorem mem_dropWhile {α : Type} {p : α → Bool} {c : α} :
    ∀ {cs : List α}, c ∈ cs.dropWhile p → c ∈ cs := by
  intro cs
  induction cs with
  | nil => simp [List.dropWhile]
  | cons a as ih =>
    intro h
    rw [List.dropWhile] at h
    split at h
    · exact List.mem_cons_of_mem a (ih h)
    · exact h

theorem mem_pyStrip {c : Char} {cs : List Char} (h : c ∈ pyStrip cs) : c ∈ cs := by
  unfold pyStrip at h
  rw [List.mem_reverse] at h
  have h2 := mem_dropWhile h
  rw [List.mem_reverse] at h2
  exact mem_dropWhile h2

theorem floatOfCleaned_all_dots {cs : List Char} (h : ∀ c ∈ cs, c = '.') :
    floatOfCleaned cs = none := by
  cases cs with
  | nil => rfl
  | cons c cs' =>
    have hc : c = '.' := h c (by simp)
    subst hc
    have hdrop : ('.' :: cs').dropWhile (fun c => c ≠ '.') = '.' :: cs' := by
      rw [List.dropWhile_cons]
      simp
    unfold floatOfCleaned
    rw [hdrop]
    cases cs' with
    | nil => simp
    | cons d cs'' =>
      have hd : d = '.' := h d (by simp)
      subst hd
      simp [List.contains]

theorem filter_dropWhile {α : Type} {p q : α → Bool}
    (hpq : ∀ a, q a = true → p a = false) :
    ∀ (l : List α), (l.dropWhile q).filter p = l.filter p := by
  intro l
  induction l with
  | nil => rfl
  | cons a as ih =>
    rw [List.dropWhile_cons]
    split
    · rename_i hq
      rw [ih, List.filter_cons, hpq a hq]
      simp
    · rfl

theorem filter_pyStrip {p : Char → Bool}
    (hp : ∀ c : Char, c.isWhitespace = true → p c = false) (cs : List Char) :
    (pyStrip cs).filter p = cs.filter p := by
  unfold pyStrip
  rw [List.filter_reverse, filter_dropWhile hp, List.filter_reverse,
    List.reverse_reverse, filter_dropWhile hp]

theorem leadsWith_append (l m : List Char) : leadsWith l (l ++ m) = true := by
  induction l with
  | nil => rfl
  | cons a as ih => simp [leadsWith, ih]

theorem pySplitF_nil (sep : List Char) (f : Nat) : pySplitF sep f [] = [[]] := by
  cases f <;> rfl

theorem pySplitF_cons (sep : List Char) (f : Nat) (c : Char) (rest : List Char) :
    pySplitF sep (f + 1) (c :: rest) =
      if leadsWith sep (c :: rest) then
        [] :: pySplitF sep f (rest.drop (sep.length - 1))
      else
        match pySplitF sep f rest with
        | [] => [[c]]
        | h :: t => (c :: h) :: t := rfl

theorem pySplitF_ge (sep : List Char) :
    ∀ (f1 : Nat) (cs : List Char) (f2 : Nat), cs.length ≤ f1 → cs.length ≤ f2 →
      pySplitF sep f1 cs = pySplitF sep f2 cs := by
  intro f1
  induction f1 with
  | zero =>
    intro cs f2 h1 _
    have : cs = [] := List.length_eq_zero.mp (Nat.le_zero.mp h1)
    subst this
    rw [pySplitF_nil, pySplitF_nil]
  | succ g ih =>
    intro cs f2 h1 h2
    cases cs with
    | nil => rw [pySplitF_nil, pySplitF_nil]
    | cons c rest =>
      cases f2 with
      | zero => simp at h2
      | succ g2 =>
        rw [pySplitF_cons, pySplitF_cons]
        simp only [List.length_cons] at h1 h2
        have hr1 : rest.length ≤ g := by omega
        have hr2 : rest.length ≤ g2 := by omega
        split
        · have hd1 : (rest.drop (sep.length - 1)).length ≤ g := by
            have := List.length_drop (sep.length - 1) rest
            omega
          have hd2 : (rest.drop (sep.length - 1)).length ≤ g2 := by
            have := List.length_drop (sep.length - 1) rest
            omega
          rw [ih _ g2 hd1 hd2]
        · rw [ih rest g2 hr1 hr2]

theorem pySplit_first {sep A B : List Char} (hsep : sep ≠ [])
    (h : ∀ i, i < A.length → leadsWith sep ((A ++ sep ++ B).drop i) = false) :
    pySplit sep (A ++ sep ++ B) = A :: pySplit sep B := by
  induction A with
  | nil =>
    rcases sep with _ | ⟨s, ss⟩
    · exact absurd rfl hsep
    · show pySplit (s :: ss) (s :: (ss ++ B)) = [] :: pySplit (s :: ss) B
      have hl : leadsWith (s :: ss) (s :: (ss ++ B)) = true := leadsWith_append _ _
      unfold pySplit
      rw [List.length_cons, pySplitF_cons, if_pos hl]
      congr 1
      have hdrop : (ss ++ B).drop ((s :: ss).length - 1) = B := by
        simp only [List.length_cons, Nat.add_sub_cancel]
        exact List.drop_left ss B
      rw [hdrop]
      exact pySplitF_ge _ _ _ _ (by simp) le_rfl
  | cons a A' ih =>
    have h0 : leadsWith sep (a :: (A' ++ (sep ++ B))) = false := by
      have := h 0 (by simp)
      simpa [List.append_assoc] using this
    have ih' : pySplit sep (A' ++ sep ++ B) = A' :: pySplit sep B := by
      apply ih
      intro i hi
      have := h (i + 1) (by simpa using Nat.succ_lt_succ hi)
      simpa using this
    show pySplit sep (a :: (A' ++ sep ++ B)) = (a :: A') :: pySplit sep B
    unfold pySplit at ih' ⊢
    rw [List.append_assoc] at ih' ⊢
    rw [List.length_cons, pySplitF_cons, if_neg (by simp [h0]), ih']

theorem ebayProcess_eq (it : ItemReq) (L : EbayRaw) :
    ebayProcess it L = if L.broken then none else ebayProcessCore it L := by
  cases hb : L.broken <;> simp [ebayProcess, ebayProcessE, hb]

theorem ebayProcess_some {it : ItemReq} {L : EbayRaw} {r : ResultDict}
    (h : ebayProcess it L = some r) :
    ∃ p l, ebayExtractPrice L = some p ∧ L.linkHref = some l ∧
      ebayTitle L ≠ "N/A" ∧
      r = ⟨"eBay", it.name, ebayTitle L, some p, ebaySellerRating L, some l⟩ := by
  rw [ebayProcess_eq] at h
  split at h
  · exact absurd h (by simp)
  · unfold ebayProcessCore at h
    split at h
    · rename_i p l hp hl
      split at h
      · exact absurd h (by simp)
      · split at h
        · rename_i ht _
          exact ⟨p, l, hp, hl, ht, (Option.some.inj h).symm⟩
        · exact absurd h (by simp)
    · exact absurd h (by simp)

theorem ebayProcess_none_of_missing (it : ItemReq) (L : EbayRaw)
    (h : ebayTitle L = "N/A" ∨ ebayExtractPrice L = none ∨ L.linkHref = none) :
    ebayProcess it L = none := by
  rw [ebayProcess_eq]
  split
  · rfl
  · unfold ebayProcessCore
    rcases h with h | h | h
    · split
      · rw [if_pos h]
      · rfl
    · rw [h]
    · rw [h]
      split <;> simp_all

theorem amazonProcess_eq (it : ItemReq) (L : AmazonRaw) :
    amazonProcess it L = if L.broken then none else amazonProcessCore it L := by
  cases hb : L.broken <;> simp [amazonProcess, amazonProcessE, hb]

theorem amazonProcess_some {it : ItemReq} {L : AmazonRaw} {r : ResultDict}
    (h : amazonProcess it L = some r) :
    ∃ p l, amazonExtractPrice L = some p ∧ amazonExtractLink L = some l ∧
      amazonExtractTitle L ≠ "N/A" ∧
      r = ⟨"Amazon", it.name, amazonExtractTitle L, some p, none, some l⟩ := by
  rw [amazonProcess_eq] at h
  split at h
  · exact absurd h (by simp)
  · unfold amazonProcessCore at h
    split at h
    · exact absurd h (by simp)
    · split at h
      · rename_i p l hp hl
        split at h
        · exact absurd h (by simp)
        · split at h
          · rename_i ht _
            exact ⟨p, l, hp, hl, ht, (Option.some.inj h).symm⟩
          · exact absurd h (by simp)
      · exact absurd h (by simp)

theorem amazonProcess_none_of_missing (it : ItemReq) (L : AmazonRaw)
    (h : amazonExtractTitle L = "N/A" ∨ amazonExtractPrice L = none ∨
      amazonExtractLink L = none) :
    amazonProcess it L = none := by
  rw [amazonProcess_eq]
  split
  · rfl
  · unfold amazonProcessCore
    split
    · rfl
    · rcases h with h | h | h
      · split
        · rw [if_pos h]
        · rfl
      · rw [h]
      · rw [h]
        split <;> simp_all

theorem walmartJsonProcess_eq (it : ItemReq) (d : WalmartJsonItem) :
    walmartJsonProcess it d = if d.broken then none else walmartJsonProcessCore it d := by
  cases hb : d.broken <;> simp [walmartJsonProcess, walmartJsonProcessE, hb]

theorem walmartJsonProcess_some {it : ItemReq} {d : WalmartJsonItem} {r : ResultDict}
    (h : walmartJsonProcess it d = some r) :
    ∃ p l, cleanPriceOpt (walmartJsonPriceArg d) = some p ∧ walmartJsonLink d = some l ∧
      pyStripS d.title ≠ "" ∧
      r = ⟨"Walmart", it.name, pyStripS d.title, some p, none, some l⟩ := by
  rw [walmartJsonProcess_eq] at h
  split at h
  · exact absurd h (by simp)
  · unfold walmartJsonProcessCore at h
    split at h
    · rename_i p l hp hl
      split at h
      · exact absurd h (by simp)
      · split at h
        · rename_i ht _
          exact ⟨p, l, hp, hl, ht, (Option.some.inj h).symm⟩
        · exact absurd h (by simp)
    · exact absurd h (by simp)

theorem walmartHtmlProcess_eq (it : ItemReq) (L : WalmartRaw) :
    walmartHtmlProcess it L = if L.broken then none else walmartHtmlProcessCore it L := by
  cases hb : L.broken <;> simp [walmartHtmlProcess, walmartHtmlProcessE, hb]

theorem walmartHtmlProcess_some {it : ItemReq} {L : WalmartRaw} {r : ResultDict}
    (h : walmartHtmlProcess it L = some r) :
    ∃ p l, cleanPriceOpt L.priceEl = some p ∧ walmartHtmlLink L = some l ∧
      walmartHtmlTitle L ≠ "N/A" ∧
      r = ⟨"Walmart", it.name, walmartHtmlTitle L, some p, none, some l⟩ := by
  rw [walmartHtmlProcess_eq] at h
  split at h
  · exact absurd h (by simp)
  · unfold walmartHtmlProcessCore at h
    split at h
    · rename_i p l hp hl
      split at h
      · exact absurd h (by simp)
      · split at h
        · rename_i ht _
          exact ⟨p, l, hp, hl, ht, (Option.some.inj h).symm⟩
        · exact absurd h (by simp)
    · exact absurd h (by simp)

theorem bbJsonProcess_eq (it : ItemReq) (d : BBJsonProduct) :
    bbJsonProcess it d = if d.broken then none else bbJsonProcessCore it d := by
  cases hb : d.broken <;> simp [bbJsonProcess, bbJsonProcessE, hb]

theorem bbJsonProcess_some {it : ItemReq} {d : BBJsonProduct} {r : ResultDict}
    (h : bbJsonProcess it d = some r) :
    ∃ t p l, d.name = some t ∧ cleanPriceOpt d.offerPrice = some p ∧ d.url = some l ∧
      t ≠ "" ∧ l ≠ "" ∧
      r = ⟨"BestBuy", it.name, t, some p, none, some (bbJsonResolveLink l)⟩ := by
  rw [bbJsonProcess_eq] at h
  split at h
  · exact absurd h (by simp)
  · unfold bbJsonProcessCore at h
    split at h
    · exact absurd h (by simp)
    · split at h
      · rename_i t p l ht hp hl
        split at h
        · exact absurd h (by simp)
        · rename_i hne
          split at h
          · refine ⟨t, p, l, ht, hp, hl, ?_, ?_, (Option.some.inj h).symm⟩ <;>
              simp only [Bool.or_eq_true, decide_eq_true_eq, not_or] at hne <;> tauto
          · exact absurd h (by simp)
      · exact absurd h (by simp)

theorem bbHtmlProcess_eq (it : ItemReq) (L : BBRaw) :
    bbHtmlProcess it L = if L.broken then none else bbHtmlProcessCore it L := by
  cases hb : L.broken <;> simp [bbHtmlProcess, bbHtmlProcessE, hb]

theorem bbHtmlProcess_some {it : ItemReq} {L : BBRaw} {r : ResultDict}
    (h : bbHtmlProcess it L = some r) :
    ∃ p l, cleanPriceOpt L.priceEl = some p ∧ bbHtmlLink L = some l ∧
      bbHtmlTitle L ≠ "N/A" ∧
      r = ⟨"BestBuy", it.name, bbHtmlTitle L, some p, none, some l⟩ := by
  rw [bbHtmlProcess_eq] at h
  split at h
  · exact absurd h (by simp)
  · unfold bbHtmlProcessCore at h
    split at h
    · rename_i p l hp hl
      split at h
      · exact absurd h (by simp)
      · split at h
        · rename_i ht _
          exact ⟨p, l, hp, hl, ht, (Option.some.inj h).symm⟩
        · exact absurd h (by simp)
    · exact absurd h (by simp)

theorem mem_ebaySearch {it : ItemReq} {pg : EbayPage} {r : ResultDict}
    (h : r ∈ ebaySearch it pg) : ∃ L ∈ pg.listings, ebayProcess it L = some r := by
  unfold ebaySearch at h
  split at h
  · simp at h
  · split at h
    · simp at h
    · exact List.mem_filterMap.mp h

theorem mem_amazonSearch {it : ItemReq} {pg : AmazonPage} {r : ResultDict}
    (h : r ∈ amazonSearch it pg) : ∃ L ∈ pg.listings, amazonProcess it L = some r := by
  unfold amazonSearch at h
  split at h
  · simp at h
  · split at h
    · simp at h
    · split at h
      · simp at h
      · exact List.mem_filterMap.mp h

theorem mem_walmartSearch {it : ItemReq} {pg : WalmartPage} {r : ResultDict}
    (h : r ∈ walmartSearch it pg) :
    (∃ d, walmartJsonProcess it d = some r) ∨
      (∃ L, walmartHtmlProcess it L = some r) := by
  unfold walmartSearch at h
  split at h
  · simp at h
  · split at h
    · simp at h
    · split at h
      · simp at h
      · split at h
        · obtain ⟨d, _, hd⟩ := List.mem_filterMap.mp h
          exact Or.inl ⟨d, hd⟩
        · obtain ⟨L, _, hL⟩ := List.mem_filterMap.mp h
          exact Or.inr ⟨L, hL⟩

theorem mem_bbSearch {it : ItemReq} {pg : BBPage} {r : ResultDict}
    (h : r ∈ bbSearch it pg) :
    (∃ d, bbJsonProcess it d = some r) ∨ (∃ L, bbHtmlProcess it L = some r) := by
  unfold bbSearch at h
  split at h
  · simp at h
  · split at h
    · simp at h
    · split at h
      · simp at h
      · split at h
        · rw [List.mem_flatten] at h
          obtain ⟨l, hl, hr⟩ := h
          rw [List.mem_map] at hl
          obtain ⟨sc, _, hsc⟩ := hl
          subst hsc
          unfold bbScriptResults at hr
          split at hr
          · obtain ⟨d, _, hd⟩ := List.mem_filterMap.mp hr
            exact Or.inl ⟨d, hd⟩
          · simp at hr
        · obtain ⟨L, _, hL⟩ := List.mem_filterMap.mp h
          exact Or.inr ⟨L, hL⟩

theorem ebayExtractPrice_nonneg {L : EbayRaw} {p : ℚ}
    (h : ebayExtractPrice L = some p) : 0 ≤ p := by
  unfold ebayExtractPrice at h
  exact cleanPrice_nonneg h

theorem amazonExtractPrice_nonneg {L : AmazonRaw} {p : ℚ}
    (h : amazonExtractPrice L = some p) : 0 ≤ p := by
  unfold amazonExtractPrice at h
  split at h
  · exact cleanPrice_nonneg h
  · exact cleanPriceOpt_nonneg h

theorem whitespace_not_kept (c : Char) (hc : c.isWhitespace = true) :
    (c.isDigit || c == '.') = false := by
  unfold Char.isWhitespace at hc
  simp only [Bool.or_eq_true, decide_eq_true_eq] at hc
  rcases hc with ((h | h) | h) | h <;> subst h <;> decide

theorem digit_ne_dot {c : Char} (h : c.isDigit = true) : c ≠ '.' := by
  intro he
  subst he
  exact absurd h (by decide)

theorem takeWhile_append_of_all {α : Type} {p : α → Bool} {l1 l2 : List α} {b : α}
    (h1 : ∀ a ∈ l1, p a = true) (h2 : p b = false) :
    (l1 ++ b :: l2).takeWhile p = l1 := by
  induction l1 with
  | nil => simp [List.takeWhile_cons, h2]
  | cons a as ih =>
    rw [List.cons_append, List.takeWhile_cons, h1 a (by simp)]
    rw [ih (fun a ha => h1 a (by simp [ha]))]
    simp

theorem dropWhile_append_of_all {α : Type} {p : α → Bool} {l1 l2 : List α} {b : α}
    (h1 : ∀ a ∈ l1, p a = true) (h2 : p b = false) :
    (l1 ++ b :: l2).dropWhile p = b :: l2 := by
  induction l1 with
  | nil => simp [List.dropWhile_cons, h2]
  | cons a as ih =>
    rw [List.cons_append, List.dropWhile_cons, if_pos (h1 a (by simp))]
    exact ih (fun a ha => h1 a (by simp [ha]))

theorem dropWhile_first_false {α : Type} {p : α → Bool} :
    ∀ {l : List α} {d : α} {rest : List α}, l.dropWhile p = d :: rest → p d = false := by
  intro l
  induction l with
  | nil => intro d rest h; simp [List.dropWhile] at h
  | cons a as ih =>
    intro d rest h
    rw [List.dropWhile_cons] at h
    split at h
    · exact ih h
    · rename_i hp
      cases h
      simpa using hp

/-! ## Claim C1 -/

/-- **C1** (amended).  For every adapter (eBay, Amazon, Walmart, BestBuy),
item request and page content, every result emitted by `search` has a present
price that parsed as a nonnegative float and a present link, and on the eBay
and Amazon adapters its title is never the missing-data sentinel `"N/A"`; a
listing whose extracted title is the sentinel, or whose normalized price or
resolved link is missing, is discarded entirely and never emitted (shown here
for the per-listing processors of the two cited adapters).  The original
claim's stronger "non-empty title" and "positive price" are refuted by
`c1_counterexample`. -/
theorem c1_results_complete_amended :
    (∀ (it : ItemReq) (pg : EbayPage) (r : ResultDict), r ∈ ebaySearch it pg →
      r.title ≠ "N/A" ∧ (∃ p, r.price = some p ∧ 0 ≤ p) ∧ (∃ l, r.link = some l)) ∧
    (∀ (it : ItemReq) (pg : AmazonPage) (r : ResultDict), r ∈ amazonSearch it pg →
      r.title ≠ "N/A" ∧ (∃ p, r.price = some p ∧ 0 ≤ p) ∧ (∃ l, r.link = some l)) ∧
    (∀ (it : ItemReq) (pg : WalmartPage) (r : ResultDict), r ∈ walmartSearch it pg →
      (∃ p, r.price = some p ∧ 0 ≤ p) ∧ (∃ l, r.link = some l)) ∧
    (∀ (it : ItemReq) (pg : BBPage) (r : ResultDict), r ∈ bbSearch it pg →
      (∃ p, r.price = some p ∧ 0 ≤ p) ∧ (∃ l, r.link = some l)) ∧
    (∀ (it : ItemReq) (L : EbayRaw),
      ebayTitle L = "N/A" ∨ ebayExtractPrice L = none ∨ L.linkHref = none →
      ebayProcess it L = none) ∧
    (∀ (it : ItemReq) (L : AmazonRaw),
      amazonExtractTitle L = "N/A" ∨ amazonExtractPrice L = none ∨
        amazonExtractLink L = none →
      amazonProcess it L = none) := by
  refine ⟨?_, ?_, ?_, ?_, ebayProcess_none_of_missing, amazonProcess_none_of_missing⟩
  · intro it pg r h
    obtain ⟨L, _, hL⟩ := mem_ebaySearch h
    obtain ⟨p, l, hp, _, ht, hr⟩ := ebayProcess_some hL
    subst hr
    exact ⟨ht, ⟨p, rfl, ebayExtractPrice_nonneg hp⟩, ⟨l, rfl⟩⟩
  · intro it pg r h
    obtain ⟨L, _, hL⟩ := mem_amazonSearch h
    obtain ⟨p, l, hp, _, ht, hr⟩ := amazonProcess_some hL
    subst hr
    exact ⟨ht, ⟨p, rfl, amazonExtractPrice_nonneg hp⟩, ⟨l, rfl⟩⟩
  · intro it pg r h
    rcases mem_walmartSearch h with ⟨d, hd⟩ | ⟨L, hL⟩
    · obtain ⟨p, l, hp, _, _, hr⟩ := walmartJsonProcess_some hd
      subst hr
      exact ⟨⟨p, rfl, cleanPriceOpt_nonneg hp⟩, ⟨l, rfl⟩⟩
    · obtain ⟨p, l, hp, _, _, hr⟩ := walmartHtmlProcess_some hL
      subst hr
      exact ⟨⟨p, rfl, cleanPriceOpt_nonneg hp⟩, ⟨l, rfl⟩⟩
  · intro it pg r h
    rcases mem_bbSearch h with ⟨d, hd⟩ | ⟨L, hL⟩
    · obtain ⟨t, p, l, _, hp, _, _, _, hr⟩ := bbJsonProcess_some hd
      subst hr
      exact ⟨⟨p, rfl, cleanPriceOpt_nonneg hp⟩, ⟨bbJsonResolveLink l, rfl⟩⟩
    · obtain ⟨p, l, hp, _, _, hr⟩ := bbHtmlProcess_some hL
      subst hr
      exact ⟨⟨p, rfl, cleanPriceOpt_nonneg hp⟩, ⟨l, rfl⟩⟩

/-- **C1** counterexample.  An eBay listing whose title element (and link
text) are present but empty, and whose price text is `"$0.00"`, is emitted as
a `Result` with an empty title and price `0` — refuting the claim's
"non-empty title" and "valid (positive) price": only the exact `"N/A"`
sentinel is treated as a missing title, and a parsed `0.0` passes the price
check. -/
theorem c1_counterexample :
    ebaySearch ⟨"RTX 3080", 500, 0⟩
      ⟨false, false, [⟨some "", some "", some "http://x", some "$0.00", none, false⟩]⟩ =
      [⟨"eBay", "RTX 3080", "", some 0, none, some "http://x"⟩] := by
  decide

/-- Witness for `c1_results_complete_amended` at a concrete page. -/
theorem c1_results_complete_amended_witness :
    (⟨"eBay", "RTX 3080", "Card", some 12, none, some "http://x"⟩ : ResultDict).title ≠ "N/A" ∧
    (∃ p, (⟨"eBay", "RTX 3080", "Card", some 12, none, some "http://x"⟩ : ResultDict).price =
      some p ∧ 0 ≤ p) ∧
    (∃ l, (⟨"eBay", "RTX 3080", "Card", some 12, none, some "http://x"⟩ : ResultDict).link =
      some l) :=
  c1_results_complete_amended.1 ⟨"RTX 3080", 500, 0⟩
    ⟨false, false, [⟨some "Card", some "Card", some "http://x", some "$12", none, false⟩]⟩
    ⟨"eBay", "RTX 3080", "Card", some 12, none, some "http://x"⟩ (by decide)

/-! ## Claim C2 -/

/-- **C2**.  The filter predicate: `_apply_filters` returns `false` whenever
the result's price is absent or strictly greater than the item's `max_price`,
and returns `true` at exact equality of price and `max_price`; the eBay
variant (the conjunction with `_apply_ebay_filters` as `search` applies it)
returns `false` whenever the item's `min_seller_rating` is greater than `0`
and the result's `seller_rating` is absent or below `min_seller_rating`.  The
predicates are Lean functions of the result and the item alone, hence pure
and deterministic by construction. -/
theorem c2_filter_predicate :
    (∀ (r : ResultDict) (it : ItemReq), r.price = none → applyFilters r it = false) ∧
    (∀ (r : ResultDict) (it : ItemReq) (p : ℚ), r.price = some p → it.maxPrice < p →
      applyFilters r it = false) ∧
    (∀ (r : ResultDict) (it : ItemReq), r.price = some it.maxPrice →
      applyFilters r it = true) ∧
    (∀ (r : ResultDict) (it : ItemReq), 0 < it.minSellerRating → r.sellerRating = none →
      ebayPasses r it = false) ∧
    (∀ (r : ResultDict) (it : ItemReq) (sr : ℚ), 0 < it.minSellerRating →
      r.sellerRating = some sr → sr < it.minSellerRating → ebayPasses r it = false) := by
  refine ⟨?_, ?_, ?_, ?_, ?_⟩
  · intro r it h
    simp [applyFilters, h]
  · intro r it p h hlt
    simp [applyFilters, h, hlt]
  · intro r it h
    simp [applyFilters, h]
  · intro r it hmin h
    have : applyEbayFilters r it = false := by
      simp [applyEbayFilters, hmin, h]
    simp [ebayPasses, this]
  · intro r it sr hmin h hlt
    have : applyEbayFilters r it = false := by
      simp [applyEbayFilters, hmin, h, hlt]
    simp [ebayPasses, this]

/-- Witness for `c2_filter_predicate` at concrete results and items. -/
theorem c2_filter_predicate_witness :
    applyFilters ⟨"eBay", "i", "t", none, none, some "l"⟩ ⟨"i", 10, 0⟩ = false ∧
    applyFilters ⟨"eBay", "i", "t", some 15, none, some "l"⟩ ⟨"i", 10, 0⟩ = false ∧
    applyFilters ⟨"eBay", "i", "t", some 10, none, some "l"⟩ ⟨"i", 10, 0⟩ = true ∧
    ebayPasses ⟨"eBay", "i", "t", some 5, none, some "l"⟩ ⟨"i", 10, 90⟩ = false ∧
    ebayPasses ⟨"eBay", "i", "t", some 5, some 80, some "l"⟩ ⟨"i", 10, 90⟩ = false :=
  ⟨c2_filter_predicate.1 _ _ rfl,
   c2_filter_predicate.2.1 _ _ 15 rfl (by norm_num),
   c2_filter_predicate.2.2.1 _ ⟨"i", 10, 0⟩ rfl,
   c2_filter_predicate.2.2.2.1 _ ⟨"i", 10, 90⟩ (by norm_num) rfl,
   c2_filter_predicate.2.2.2.2 _ ⟨"i", 10, 90⟩ 80 (by norm_num) rfl (by norm_num)⟩

/-! ## Claim C3 -/

theorem mkRat_decimal (a b k : ℕ) :
    mkRat (a * 10 ^ k + b) (10 ^ k) = (a : ℚ) + (b : ℚ) / 10 ^ k := by
  rw [Rat.mkRat_eq_div]
  push_cast
  have hk : (10 : ℚ) ^ k ≠ 0 := by positivity
  field_simp

theorem takeWhile_all {α : Type} {p : α → Bool} {l : List α}
    (h : ∀ a ∈ l, p a = true) : l.takeWhile p = l := by
  induction l with
  | nil => rfl
  | cons a as ih =>
    rw [List.takeWhile_cons, h a (by simp), ih (fun a ha => h a (by simp [ha]))]
    simp

theorem dropWhile_all {α : Type} {p : α → Bool} {l : List α}
    (h : ∀ a ∈ l, p a = true) : l.dropWhile p = [] := by
  induction l with
  | nil => rfl
  | cons a as ih =>
    rw [List.dropWhile_cons, if_pos (h a (by simp))]
    exact ih (fun a ha => h a (by simp [ha]))

theorem contains_of_mem {l : List Char} {a : Char} (h : a ∈ l) : l.contains a = true := by
  induction l with
  | nil => simp at h
  | cons c cs ih =>
    rw [List.contains_cons]
    rcases List.mem_cons.mp h with h | h
    · subst h
      simp
    · rw [ih h, Bool.or_true]

theorem contains_eq_false_of_all_ne {l : List Char} {a : Char}
    (h : ∀ c ∈ l, c ≠ a) : l.contains a = false := by
  induction l with
  | nil => rfl
  | cons c cs ih =>
    rw [List.contains_cons]
    have hc : (a == c) = false := by
      have := h c (by simp)
      simp [BEq.comm]
      exact fun he => (this he.symm).elim
    rw [hc, ih (fun c hc => h c (by simp [hc]))]
    rfl

/-- The characters `_clean_price` keeps. -/
theorem cleanPrice_eq_of_filter {s : String} {cs : List Char}
    (h : s.data.filter (fun c => c.isDigit || c == '.') = cs) (hcs : cs ≠ []) :
    cleanPrice s = floatOfCleaned cs := by
  have hfil : (pyStrip s.data).filter (fun c => c.isDigit || c == '.') = cs := by
    rw [filter_pyStrip whitespace_not_kept]
    exact h
  have hs : s ≠ "" := by
    intro he
    subst he
    simp at h
    exact hcs h
  unfold cleanPrice
  rw [if_neg hs, hfil, if_neg (by simp [List.isEmpty_iff, hcs])]

/-- **C3** (amended).  `clean_price` keeps only digits and dots of its input:
a string with no digits yields absent; a parse-failure (more than one
retained dot) yields absent; every returned value is a nonnegative rational;
a string whose retained characters are digits `w`, one dot, and digits `f`
(currency marks, thousands separators and whitespace being discarded
anywhere) yields exactly the decimal value `w + f/10^|f|`, and digits alone
yield their integer value.  The original claim's "positive" is refuted by
`c3_counterexample`: `"$0.00"` parses to `0`, which is returned although it
is not a positive float. -/
theorem c3_clean_price_amended :
    (∀ s : String, (∀ c ∈ s.data, c.isDigit = false) → cleanPrice s = none) ∧
    (∀ (s : String) (q : ℚ), cleanPrice s = some q → 0 ≤ q) ∧
    (∀ (s : String) (w f : List Char),
      s.data.filter (fun c => c.isDigit || c == '.') = w ++ '.' :: f →
      (∀ c ∈ w, c.isDigit = true) → (∀ c ∈ f, c.isDigit = true) → w ++ f ≠ [] →
      cleanPrice s = some ((digitsToNat w : ℚ) + (digitsToNat f : ℚ) / 10 ^ f.length)) ∧
    (∀ (s : String) (w : List Char),
      s.data.filter (fun c => c.isDigit || c == '.') = w →
      (∀ c ∈ w, c.isDigit = true) → w ≠ [] →
      cleanPrice s = some (digitsToNat w : ℚ)) ∧
    (∀ s : String,
      2 ≤ (s.data.filter (fun c => c.isDigit || c == '.')).count '.' →
      cleanPrice s = none) := by
  refine ⟨?_, fun s q h => cleanPrice_nonneg h, ?_, ?_, ?_⟩
  · intro s h
    unfold cleanPrice
    split
    · rfl
    · split
      · rfl
      · apply floatOfCleaned_all_dots
        intro c hc
        rw [List.mem_filter] at hc
        obtain ⟨hc1, hc2⟩ := hc
        have hd := h c (mem_pyStrip hc1)
        rw [hd] at hc2
        simpa using hc2
  · intro s w f hf hw hfd hne
    rw [cleanPrice_eq_of_filter hf (by simp)]
    have hwp : ∀ c ∈ w, (fun c => decide (c ≠ '.')) c = true := by
      intro c hc
      simpa using digit_ne_dot (hw c hc)
    have hdot : (fun c : Char => decide (c ≠ '.')) '.' = false := by simp
    unfold floatOfCleaned
    rw [dropWhile_append_of_all hwp hdot]
    dsimp only
    have htake : (w ++ '.' :: f).takeWhile (fun c => decide (c ≠ '.')) = w :=
      takeWhile_append_of_all hwp hdot
    have hfc : f.contains '.' = false :=
      contains_eq_false_of_all_ne (fun c hc => digit_ne_dot (hfd c hc))
    have hwf : (w.isEmpty && f.isEmpty) = false := by
      cases w <;> cases f <;> simp_all
    rw [htake, if_neg (by rw [hfc]; simp), if_neg (by rw [hwf]; simp)]
    congr 1
    rw [Rat.mkRat_eq_div]
    push_cast
    have hk : (10 : ℚ) ^ f.length ≠ 0 := by positivity
    field_simp
  · intro s w hf hw hne
    rw [cleanPrice_eq_of_filter hf hne]
    have hwp : ∀ c ∈ w, (fun c => decide (c ≠ '.')) c = true := by
      intro c hc
      simpa using digit_ne_dot (hw c hc)
    unfold floatOfCleaned
    rw [dropWhile_all hwp, takeWhile_all hwp]
    rcases w with _ | ⟨c, cs⟩
    · exact absurd rfl hne
    · rw [if_pos]
      simp only [List.any_cons, Bool.or_eq_true]
      exact Or.inl (hw c (by simp))
  · intro s hcount
    have hfil : (pyStrip s.data).filter (fun c => c.isDigit || c == '.') =
        s.data.filter (fun c => c.isDigit || c == '.') :=
      filter_pyStrip whitespace_not_kept s.data
    unfold cleanPrice
    split
    · rfl
    · split
      · rfl
      · rw [hfil]
        rename_i hne
        generalize hF : s.data.filter (fun c => c.isDigit || c == '.') = F
        rw [hF] at hcount
        unfold floatOfCleaned
        split
        · rename_i hdrop
          exfalso
          have hall := List.dropWhile_eq_nil_iff.mp hdrop
          have : ('.' : Char) ∉ F := by
            intro hm
            have := hall '.' hm
            simp at this
          rw [List.count_eq_zero.mpr this] at hcount
          omega
        · rename_i d frac hdrop
          have hd : d = '.' := by
            have := dropWhile_first_false hdrop
            simpa using this
          subst hd
          have hsplitF : F.takeWhile (fun c => decide (c ≠ '.')) ++ '.' :: frac = F := by
            rw [← hdrop]
            exact List.takeWhile_append_dropWhile _ _
          have hcount0 : (F.takeWhile (fun c => decide (c ≠ '.'))).count '.' = 0 := by
            rw [List.count_eq_zero]
            intro hm
            have := List.mem_takeWhile_imp hm
            simp at this
          have hfraccount : 1 ≤ frac.count '.' := by
            have hc2 : F.count '.' =
                (F.takeWhile (fun c => decide (c ≠ '.'))).count '.' +
                  ('.' :: frac).count '.' := by
              rw [← List.count_append, hsplitF]
            rw [hc2, hcount0, List.count_cons_self] at hcount
            omega
          have hmem : ('.' : Char) ∈ frac := by
            rw [← List.count_pos_iff]
            omega
          rw [if_pos (contains_of_mem hmem)]

/-- **C3** counterexample.  `clean_price("$0.00")` returns `0.0` although the
remainder `"0.00"` is not parsable as a *positive* float — the claim's
"returns absent unless the remainder parses as a positive float" fails. -/
theorem c3_counterexample :
    cleanPrice "$0.00" = some 0 ∧ ∀ q : ℚ, cleanPrice "$0.00" = some q → ¬0 < q := by
  have h : cleanPrice "$0.00" = some 0 := by decide
  refine ⟨h, ?_⟩
  intro q hq
  rw [h] at hq
  cases Option.some.inj hq
  exact lt_irrefl 0

/-- Witness for `c3_clean_price_amended` at concrete price strings. -/
theorem c3_clean_price_amended_witness :
    cleanPrice "USD (call us)" = none ∧
    (0 : ℚ) ≤ 5 ∧
    cleanPrice " $1,234.56 " =
      some ((digitsToNat ['1', '2', '3', '4'] : ℚ) +
        (digitsToNat ['5', '6'] : ℚ) / 10 ^ (['5', '6'] : List Char).length) ∧
    cleanPrice "$1,234" = some (digitsToNat ['1', '2', '3', '4'] : ℚ) ∧
    cleanPrice "1.2.3" = none :=
  ⟨c3_clean_price_amended.1 "USD (call us)" (by decide),
   c3_clean_price_amended.2.1 "5" 5 (by decide),
   c3_clean_price_amended.2.2.1 " $1,234.56 " ['1', '2', '3', '4'] ['5', '6']
     (by decide) (by decide) (by decide) (by decide),
   c3_clean_price_amended.2.2.2.1 "$1,234" ['1', '2', '3', '4'] (by decide) (by decide)
     (by decide),
   c3_clean_price_amended.2.2.2.2 "1.2.3" (by decide)⟩

/-! ## Claim C4 -/

/-- **C4** (amended).  Link resolution is adapter-specific rather than
uniform.  Amazon follows the claimed rule: an absolute (`http`-prefixed) href
passes through, a `/`-prefixed href is joined to the site origin, and any
other href makes the listing be discarded.  eBay performs no resolution at
all: every extracted href is emitted unchanged.  Walmart's HTML path joins
`/`-prefixed hrefs to the origin and passes every other href through
unchanged; Walmart's JSON path joins every non-empty `canonicalUrl` to the
origin regardless of its form.  BestBuy joins every href/url not starting
with `http` to the origin (the JSON path inserting a `/` when absent, the
HTML path inserting nothing).  The original uniform claim is refuted by
`c4_counterexample`. -/
theorem c4_link_resolution_amended :
    (∀ (it : ItemReq) (L : EbayRaw) (r : ResultDict), ebayProcess it L = some r →
      r.link = L.linkHref) ∧
    (∀ (it : ItemReq) (L : AmazonRaw) (r : ResultDict), amazonProcess it L = some r →
      ∃ h, L.linkHref = some h ∧
        ((pyStartsWith h "/" = true ∧ r.link = some ("https://www.amazon.com" ++ h)) ∨
          (pyStartsWith h "/" = false ∧ pyStartsWith h "http" = true ∧ r.link = some h))) ∧
    (∀ (it : ItemReq) (L : AmazonRaw) (h : String), L.linkHref = some h →
      pyStartsWith h "/" = false → pyStartsWith h "http" = false →
      amazonProcess it L = none) ∧
    (∀ (it : ItemReq) (L : WalmartRaw) (r : ResultDict), walmartHtmlProcess it L = some r →
      ∃ h, L.linkHref = some h ∧
        r.link = some (if pyStartsWith h "/" then "https://www.walmart.com" ++ h else h)) ∧
    (∀ (it : ItemReq) (d : WalmartJsonItem) (r : ResultDict),
      walmartJsonProcess it d = some r →
      ∃ u, d.canonicalUrl = some u ∧ u ≠ "" ∧
        r.link = some ("https://www.walmart.com" ++ u)) ∧
    (∀ (it : ItemReq) (d : BBJsonProduct) (r : ResultDict), bbJsonProcess it d = some r →
      ∃ u, d.url = some u ∧ u ≠ "" ∧
        r.link = some (if pyStartsWith u "http" then u
          else if pyStartsWith u "/" then "https://www.bestbuy.com" ++ u
          else "https://www.bestbuy.com/" ++ u)) ∧
    (∀ (it : ItemReq) (L : BBRaw) (r : ResultDict), bbHtmlProcess it L = some r →
      ∃ h, L.linkHref = some h ∧
        r.link = some (if pyStartsWith h "http" then h else "https://www.bestbuy.com" ++ h)) := by
  refine ⟨?_, ?_, ?_, ?_, ?_, ?_, ?_⟩
  · intro it L r h
    obtain ⟨p, l, _, hl, _, hr⟩ := ebayProcess_some h
    subst hr
    exact hl.symm
  · intro it L r h
    obtain ⟨p, l, _, hlink, _, hr⟩ := amazonProcess_some h
    subst hr
    rcases hL : L.linkHref with _ | href
    · unfold amazonExtractLink at hlink
      rw [hL] at hlink
      simp at hlink
    · have hlink' : amazonResolveLink href = some l := by
        rw [← hlink]
        unfold amazonExtractLink
        rw [hL]
      refine ⟨href, rfl, ?_⟩
      unfold amazonResolveLink at hlink'
      split at hlink'
      · rename_i hs
        refine Or.inl ⟨hs, ?_⟩
        show some l = _
        rw [← Option.some.inj hlink']
      · split at hlink'
        · rename_i hs1 hs2
          refine Or.inr ⟨by simpa using hs1, hs2, ?_⟩
          show some l = _
          rw [← Option.some.inj hlink']
        · exact absurd hlink' (by simp)
  · intro it L h hL hs1 hs2
    apply amazonProcess_none_of_missing
    right; right
    unfold amazonExtractLink
    rw [hL]
    dsimp only
    unfold amazonResolveLink
    rw [if_neg (by simp [hs1]), if_neg (by simp [hs2])]
  · intro it L r h
    obtain ⟨p, l, _, hlink, _, hr⟩ := walmartHtmlProcess_some h
    subst hr
    rcases hL : L.linkHref with _ | href
    · unfold walmartHtmlLink at hlink
      rw [hL] at hlink
      simp at hlink
    · have hlink' : some (walmartHtmlResolveLink href) = some l := by
        rw [← hlink]
        unfold walmartHtmlLink
        rw [hL]
      refine ⟨href, rfl, ?_⟩
      show some l = _
      rw [← Option.some.inj hlink']
      unfold walmartHtmlResolveLink
      rfl
  · intro it d r h
    obtain ⟨p, l, _, hlink, _, hr⟩ := walmartJsonProcess_some h
    subst hr
    rcases hU : d.canonicalUrl with _ | u
    · unfold walmartJsonLink at hlink
      rw [hU] at hlink
      simp at hlink
    · have hlink' : (if u = "" then none else some ("https://www.walmart.com" ++ u)) =
          some l := by
        rw [← hlink]
        unfold walmartJsonLink
        rw [hU]
      split at hlink'
      · exact absurd hlink' (by simp)
      · rename_i hu
        refine ⟨u, rfl, hu, ?_⟩
        show some l = _
        rw [← Option.some.inj hlink']
  · intro it d r h
    obtain ⟨t, p, u, _, _, hu, _, hune, hr⟩ := bbJsonProcess_some h
    subst hr
    refine ⟨u, hu, hune, ?_⟩
    unfold bbJsonResolveLink
    by_cases hs : pyStartsWith u "http" = true
    · simp [hs]
    · simp only [Bool.not_eq_true] at hs
      simp [hs]
  · intro it L r h
    obtain ⟨p, l, _, hlink, _, hr⟩ := bbHtmlProcess_some h
    subst hr
    rcases hL : L.linkHref with _ | href
    · unfold bbHtmlLink at hlink
      rw [hL] at hlink
      simp at hlink
    · have hlink' : some (bbHtmlResolveLink href) = some l := by
        rw [← hlink]
        unfold bbHtmlLink
        rw [hL]
      refine ⟨href, rfl, ?_⟩
      show some l = _
      rw [← Option.some.inj hlink']
      unfold bbHtmlResolveLink
      by_cases hs : pyStartsWith href "http" = true
      · simp [hs]
      · simp only [Bool.not_eq_true] at hs
        simp [hs]

/-- **C4** counterexample.  An eBay listing whose href `"itm/123"` is neither
absolute nor `/`-prefixed is emitted with that href as its link, unresolved
and undiscarded — the claim's "any other href is treated as unresolvable
(absent), causing the listing to be discarded" fails on the eBay adapter. -/
theorem c4_counterexample :
    ebaySearch ⟨"RTX 3080", 500, 0⟩
      ⟨false, false,
        [⟨some "T", some "T", some "itm/123", some "$10.99 to $24.99", none, false⟩]⟩ =
      [⟨"eBay", "RTX 3080", "T", some (mkRat 1099 100), none, some "itm/123"⟩] := by
  decide

/-- Witness for `c4_link_resolution_amended` at concrete listings. -/
theorem c4_link_resolution_amended_witness :
    (⟨"eBay", "i", "T", some 5, none, some "itm/9"⟩ : ResultDict).link =
      (⟨some "T", some "T", some "itm/9", some "$5", none, false⟩ : EbayRaw).linkHref ∧
    (∃ h, (⟨false, some "T", some "/dp/1", some "449.", some "99", none, false⟩ :
        AmazonRaw).linkHref = some h ∧
      ((pyStartsWith h "/" = true ∧
        (⟨"Amazon", "i", "T", some (mkRat 44999 100), none,
          some "https://www.amazon.com/dp/1"⟩ : ResultDict).link =
          some ("https://www.amazon.com" ++ h)) ∨
        (pyStartsWith h "/" = false ∧ pyStartsWith h "http" = true ∧
          (⟨"Amazon", "i", "T", some (mkRat 44999 100), none,
            some "https://www.amazon.com/dp/1"⟩ : ResultDict).link = some h))) ∧
    amazonProcess ⟨"i", 500, 0⟩
      ⟨false, some "T", some "dp/1", some "449.", some "99", none, false⟩ = none ∧
    (∃ h, (⟨some "T", some "$5", some "rel/p", false⟩ : WalmartRaw).linkHref = some h ∧
      (⟨"Walmart", "i", "T", some 5, none, some "rel/p"⟩ : ResultDict).link =
        some (if pyStartsWith h "/" then "https://www.walmart.com" ++ h else h)) ∧
    (∃ u, (⟨"TV", some "9.99", none, some "/ip/5", false⟩ : WalmartJsonItem).canonicalUrl =
        some u ∧ u ≠ "" ∧
      (⟨"Walmart", "i", "TV", some (mkRat 999 100), none,
        some "https://www.walmart.com/ip/5"⟩ : ResultDict).link =
        some ("https://www.walmart.com" ++ u)) ∧
    (∃ u, (⟨true, some "Lap", some "399", some "site/p/1", false⟩ : BBJsonProduct).url =
        some u ∧ u ≠ "" ∧
      (⟨"BestBuy", "i", "Lap", some 399, none,
        some "https://www.bestbuy.com/site/p/1"⟩ : ResultDict).link =
        some (if pyStartsWith u "http" then u
          else if pyStartsWith u "/" then "https://www.bestbuy.com" ++ u
          else "https://www.bestbuy.com/" ++ u)) ∧
    (∃ h, (⟨some "Lap", some "$250", some "rel", false⟩ : BBRaw).linkHref = some h ∧
      (⟨"BestBuy", "i", "Lap", some 250, none,
        some "https://www.bestbuy.comrel"⟩ : ResultDict).link =
        some (if pyStartsWith h "http" then h else "https://www.bestbuy.com" ++ h)) :=
  ⟨c4_link_resolution_amended.1 ⟨"i", 500, 0⟩
      ⟨some "T", some "T", some "itm/9", some "$5", none, false⟩ _ (by decide),
   c4_link_resolution_amended.2.1 ⟨"i", 500, 0⟩
      ⟨false, some "T", some "/dp/1", some "449.", some "99", none, false⟩ _ (by decide),
   c4_link_resolution_amended.2.2.1 ⟨"i", 500, 0⟩
      ⟨false, some "T", some "dp/1", some "449.", some "99", none, false⟩ "dp/1"
      (by decide) (by decide) (by decide),
   c4_link_resolution_amended.2.2.2.1 ⟨"i", 500, 0⟩
      ⟨some "T", some "$5", some "rel/p", false⟩ _ (by decide),
   c4_link_resolution_amended.2.2.2.2.1 ⟨"i", 500, 0⟩
      ⟨"TV", some "9.99", none, some "/ip/5", false⟩ _ (by decide),
   c4_link_resolution_amended.2.2.2.2.2.1 ⟨"i", 500, 0⟩
      ⟨true, some "Lap", some "399", some "site/p/1", false⟩ _ (by decide),
   c4_link_resolution_amended.2.2.2.2.2.2 ⟨"i", 500, 0⟩
      ⟨some "Lap", some "$250", some "rel", false⟩ _ (by decide)⟩

/-! ## Claim C5 -/

/-- **C5**.  For every item request and fetched page content, `search` never
propagates an exception: the per-listing bodies' exceptions (`.error` in the
explicit-exception model) are caught by the loop's `except` and turn into
skipping exactly that listing.  A page whose listing selector matches nothing
yields the empty sequence, and a failing listing is skipped without touching
the other listings' results (shown for the two cited adapters, eBay and
Amazon; the search functions themselves are total by construction, every
internal failure path returning a list). -/
theorem c5_search_never_raises :
    (∀ (it : ItemReq) (L : EbayRaw), L.broken = true →
      ebayProcessE it L = Except.error () ∧ ebayProcess it L = none) ∧
    (∀ (it : ItemReq) (pg : EbayPage), pg.listings = [] → ebaySearch it pg = []) ∧
    (∀ (it : ItemReq) (ff pf : Bool) (pre post : List EbayRaw) (L : EbayRaw),
      L.broken = true →
      ebaySearch it ⟨ff, pf, pre ++ L :: post⟩ = ebaySearch it ⟨ff, pf, pre ++ post⟩) ∧
    (∀ (it : ItemReq) (L : AmazonRaw), L.broken = true →
      amazonProcessE it L = Except.error () ∧ amazonProcess it L = none) ∧
    (∀ (it : ItemReq) (pg : AmazonPage), pg.listings = [] → amazonSearch it pg = []) ∧
    (∀ (it : ItemReq) (ff pf : Bool) (txt : String) (pre post : List AmazonRaw)
      (L : AmazonRaw), L.broken = true →
      amazonSearch it ⟨ff, txt, pf, pre ++ L :: post⟩ =
        amazonSearch it ⟨ff, txt, pf, pre ++ post⟩) := by
  refine ⟨?_, ?_, ?_, ?_, ?_, ?_⟩
  · intro it L hb
    constructor
    · unfold ebayProcessE
      rw [if_pos hb]
    · rw [ebayProcess_eq, if_pos hb]
  · intro it pg h
    simp [ebaySearch, h]
  · intro it ff pf pre post L hb
    have hnone : ebayProcess it L = none := by
      rw [ebayProcess_eq, if_pos hb]
    unfold ebaySearch
    cases ff <;> cases pf <;>
      simp [List.filterMap_append, List.filterMap_cons, hnone]
  · intro it L hb
    constructor
    · unfold amazonProcessE
      rw [if_pos hb]
    · rw [amazonProcess_eq, if_pos hb]
  · intro it pg h
    unfold amazonSearch
    rw [h]
    split
    · rfl
    · split
      · rfl
      · split <;> simp
  · intro it ff pf txt pre post L hb
    have hnone : amazonProcess it L = none := by
      rw [amazonProcess_eq, if_pos hb]
    unfold amazonSearch
    cases ff
    · by_cases hblk : amazonBlocked txt = true
      · simp [hblk]
      · cases pf <;>
          simp [hblk, List.filterMap_append, List.filterMap_cons, hnone]
    · simp

/-- Witness for `c5_search_never_raises` at concrete pages. -/
theorem c5_search_never_raises_witness :
    (ebayProcessE ⟨"i", 10, 0⟩ ⟨some "T", some "T", some "h", some "$5", none, true⟩ =
        Except.error () ∧
      ebayProcess ⟨"i", 10, 0⟩ ⟨some "T", some "T", some "h", some "$5", none, true⟩ =
        none) ∧
    ebaySearch ⟨"i", 10, 0⟩ ⟨false, false, []⟩ = [] ∧
    ebaySearch ⟨"i", 10, 0⟩
        ⟨false, false, [⟨some "A", some "A", some "hA", some "$5", none, false⟩] ++
          (⟨some "B", some "B", some "hB", some "$6", none, true⟩ : EbayRaw) ::
            [⟨some "C", some "C", some "hC", some "$7", none, false⟩]⟩ =
      ebaySearch ⟨"i", 10, 0⟩
        ⟨false, false, [⟨some "A", some "A", some "hA", some "$5", none, false⟩] ++
          [⟨some "C", some "C", some "hC", some "$7", none, false⟩]⟩ ∧
    (amazonProcessE ⟨"i", 10, 0⟩ ⟨false, some "T", some "/d", some "5", some "99", none,
        true⟩ = Except.error () ∧
      amazonProcess ⟨"i", 10, 0⟩ ⟨false, some "T", some "/d", some "5", some "99", none,
        true⟩ = none) ∧
    amazonSearch ⟨"i", 10, 0⟩ ⟨false, "page", false, []⟩ = [] ∧
    amazonSearch ⟨"i", 10, 0⟩
        ⟨false, "page", false, [] ++
          (⟨false, some "T", some "/d", some "5", some "99", none, true⟩ : AmazonRaw) ::
            [⟨false, some "U", some "/e", some "6", some "99", none, false⟩]⟩ =
      amazonSearch ⟨"i", 10, 0⟩
        ⟨false, "page", false, [] ++
          [⟨false, some "U", some "/e", some "6", some "99", none, false⟩]⟩ :=
  ⟨c5_search_never_raises.1 ⟨"i", 10, 0⟩ _ rfl,
   c5_search_never_raises.2.1 ⟨"i", 10, 0⟩ ⟨false, false, []⟩ rfl,
   c5_search_never_raises.2.2.1 ⟨"i", 10, 0⟩ false false _ _ _ rfl,
   c5_search_never_raises.2.2.2.1 ⟨"i", 10, 0⟩ _ rfl,
   c5_search_never_raises.2.2.2.2.1 ⟨"i", 10, 0⟩ ⟨false, "page", false, []⟩ rfl,
   c5_search_never_raises.2.2.2.2.2 ⟨"i", 10, 0⟩ false false "page" _ _ _ rfl⟩

/-! ## Claim C6 -/

/-- **C6**.  When the fetched response matches the adapter's block signature —
`"captcha"` or `"robot check"` in the lowercased text for Amazon,
`"Access Denied"` in the text for BestBuy, `"error"` in the lowercased URL or
a non-200 status for Walmart — `search` returns the empty sequence whatever
listings, scripts or fragments the page contains: no extraction is attempted
on a block page. -/
theorem c6_block_detection :
    (∀ (it : ItemReq) (pg : AmazonPage), amazonBlocked pg.text = true →
      amazonSearch it pg = []) ∧
    (∀ (it : ItemReq) (pg : BBPage), occursInS "Access Denied" pg.text = true →
      bbSearch it pg = []) ∧
    (∀ (it : ItemReq) (pg : WalmartPage), walmartBlocked pg.url pg.status = true →
      walmartSearch it pg = []) := by
  refine ⟨?_, ?_, ?_⟩
  · intro it pg h
    simp [amazonSearch, h]
  · intro it pg h
    simp [bbSearch, h]
  · intro it pg h
    simp [walmartSearch, h]

/-- Witness for `c6_block_detection` at concrete block pages that carry
extractable listings (which are nonetheless not extracted). -/
theorem c6_block_detection_witness :
    amazonSearch ⟨"i", 500, 0⟩
      ⟨false, "please solve this CAPTCHA to continue", false,
        [⟨false, some "T", some "/d", some "449.", some "99", none, false⟩]⟩ = [] ∧
    bbSearch ⟨"i", 500, 0⟩
      ⟨false, "<html>Access Denied</html>", false,
        [⟨true, [⟨true, some "L", some "399", some "/p", false⟩]⟩], []⟩ = [] ∧
    walmartSearch ⟨"i", 500, 0⟩
      ⟨false, "https://www.walmart.com/blocked?redirect=Error", 200, false,
        [⟨true, true, [⟨"TV", some "9.99", none, some "/ip/5", false⟩]⟩], []⟩ = [] :=
  ⟨c6_block_detection.1 ⟨"i", 500, 0⟩ _ (by decide),
   c6_block_detection.2.1 ⟨"i", 500, 0⟩ _ (by decide),
   c6_block_detection.2.2 ⟨"i", 500, 0⟩ _ (by decide)⟩

/-! ## Claim C7 -/

theorem saveStep_eq_conflict {acc : SaveOutcome} {r : ResultDict}
    (hc : linkConflicts acc.db r.link = true) : (saveStep acc r).db = acc.db := by
  unfold saveStep
  rw [if_pos hc]
  split <;> rfl

theorem saveStep_eq_new {acc : SaveOutcome} {r : ResultDict}
    (hc : linkConflicts acc.db r.link = false) :
    saveStep acc r = ⟨acc.db ++ [rowOf r], acc.inserted + 1, acc.ignored⟩ := by
  unfold saveStep
  rw [if_neg (by simp [hc])]

theorem hasLink_saveStep {acc : SaveOutcome} {r : ResultDict} {l : String}
    (h : hasLink acc.db l = true) : hasLink (saveStep acc r).db l = true := by
  by_cases hc : linkConflicts acc.db r.link = true
  · rw [saveStep_eq_conflict hc]
    exact h
  · rw [saveStep_eq_new (by simpa using hc)]
    show hasLink (acc.db ++ [rowOf r]) l = true
    unfold hasLink at h ⊢
    rw [List.any_append, h]
    rfl

theorem hasLink_saveStep_self {acc : SaveOutcome} {r : ResultDict} {l : String}
    (hl : r.link = some l) : hasLink (saveStep acc r).db l = true := by
  by_cases hc : linkConflicts acc.db r.link = true
  · rw [saveStep_eq_conflict hc]
    rw [hl] at hc
    exact hc
  · rw [saveStep_eq_new (by simpa using hc)]
    show hasLink (acc.db ++ [rowOf r]) l = true
    unfold hasLink
    rw [List.any_append]
    have hrow : (rowOf r).link = some l := hl
    simp [hrow]

theorem foldl_preserves_hasLink {l : String} :
    ∀ (rs : List ResultDict) (acc : SaveOutcome), hasLink acc.db l = true →
      hasLink (rs.foldl saveStep acc).db l = true := by
  intro rs
  induction rs with
  | nil => intro acc h; exact h
  | cons a rest ih =>
    intro acc h
    exact ih (saveStep acc a) (hasLink_saveStep h)

theorem foldl_saveStep_hasLink {l : String} {r : ResultDict} :
    ∀ (rs : List ResultDict) (acc : SaveOutcome), r ∈ rs → r.link = some l →
      hasLink (rs.foldl saveStep acc).db l = true := by
  intro rs
  induction rs with
  | nil => intro acc h; simp at h
  | cons a rest ih =>
    intro acc hmem hl
    rcases List.mem_cons.mp hmem with he | hmem'
    · subst he
      exact foldl_preserves_hasLink rest _ (hasLink_saveStep_self hl)
    · exact ih (saveStep acc a) hmem' hl

theorem foldl_saveStep_all_present :
    ∀ (rs : List ResultDict) (db : List DBRow) (i g : ℕ),
      (∀ r ∈ rs, ∃ l, r.link = some l ∧ l ≠ "" ∧ hasLink db l = true) →
      rs.foldl saveStep ⟨db, i, g⟩ = ⟨db, i, g + rs.length⟩ := by
  intro rs
  induction rs with
  | nil => intro db i g _; simp
  | cons a rest ih =>
    intro db i g h
    obtain ⟨l, hl, hlne, hhas⟩ := h a (by simp)
    have hstep : saveStep ⟨db, i, g⟩ a = ⟨db, i, g + 1⟩ := by
      unfold saveStep
      rw [show linkConflicts (⟨db, i, g⟩ : SaveOutcome).db a.link = true by
        rw [hl]; exact hhas]
      simp only [if_true]
      rw [show linkTruthy a.link = true by rw [hl]; simpa [linkTruthy] using hlne]
      simp
    rw [List.foldl_cons, hstep, ih db i (g + 1) (fun r hr => h r (by simp [hr]))]
    congr 1
    simp only [List.length_cons]
    omega

/-- **C7**.  `ResultStore.save` (`save_results` over the `UNIQUE(link)`
table) is idempotent by link: saving an empty sequence is a no-op, and for
every sequence of results with present, non-empty, pairwise-distinct links,
saving it twice leaves the table exactly as after the first save and yields
`inserted = 0` and `ignored = length` on the second call. -/
theorem c7_save_idempotent :
    (∀ db : List DBRow, saveResults db [] = ⟨db, 0, 0⟩) ∧
    (∀ (db : List DBRow) (rs : List ResultDict),
      (∀ r ∈ rs, ∃ l, r.link = some l ∧ l ≠ "") →
      rs.Pairwise (fun a b => a.link ≠ b.link) →
      saveResults (saveResults db rs).db rs =
        ⟨(saveResults db rs).db, 0, rs.length⟩) := by
  constructor
  · intro db
    rfl
  · intro db rs hlinks _
    rcases hrs : rs with _ | ⟨a, rest⟩
    · rfl
    · rw [← hrs]
      have hne : rs.isEmpty = false := by rw [hrs]; rfl
      set D := (saveResults db rs).db with hD
      have hall : ∀ r ∈ rs, ∃ l, r.link = some l ∧ l ≠ "" ∧ hasLink D l = true := by
        intro r hr
        obtain ⟨l, hl, hlne⟩ := hlinks r hr
        refine ⟨l, hl, hlne, ?_⟩
        rw [hD]
        unfold saveResults
        rw [if_neg (by simp [hne])]
        exact foldl_saveStep_hasLink rs ⟨db, 0, 0⟩ hr hl
      show saveResults D rs = ⟨D, 0, rs.length⟩
      unfold saveResults
      rw [if_neg (by simp [hne]), foldl_saveStep_all_present rs D 0 0 hall]
      simp

/-- Witness for `c7_save_idempotent` at a concrete result sequence. -/
theorem c7_save_idempotent_witness :
    saveResults ([] : List DBRow) [] = ⟨[], 0, 0⟩ ∧
    saveResults
        (saveResults []
          [⟨"eBay", "i", "t1", some 10, none, some "L1"⟩,
           ⟨"eBay", "i", "t2", some 20, none, some "L2"⟩]).db
        [⟨"eBay", "i", "t1", some 10, none, some "L1"⟩,
         ⟨"eBay", "i", "t2", some 20, none, some "L2"⟩] =
      ⟨(saveResults []
          [⟨"eBay", "i", "t1", some 10, none, some "L1"⟩,
           ⟨"eBay", "i", "t2", some 20, none, some "L2"⟩]).db, 0, 2⟩ :=
  ⟨c7_save_idempotent.1 [],
   c7_save_idempotent.2 []
     [⟨"eBay", "i", "t1", some 10, none, some "L1"⟩,
      ⟨"eBay", "i", "t2", some 20, none, some "L2"⟩]
     (by decide) (by decide)⟩

/-! ## Claim C8 -/

/-- **C8**.  If one configured adapter raises from `search` on every item of
the cycle, the orchestrator's per-adapter `try/except` absorbs the failure:
the aggregate sequence (and hence what is handed to `save_results` by
`run_search_cycle`) is exactly the aggregate of the same cycle run without
that adapter — results from every other adapter for that item and for all
subsequent items are still accumulated and persisted. -/
theorem c8_orchestrator_isolation :
    (∀ (pre post : List (String × AdapterFun)) (nm : String) (bad : AdapterFun)
      (items : List ItemReq), (∀ it ∈ items, ∃ e, bad it = Except.error e) →
      cycleAggregate (pre ++ (nm, bad) :: post) items =
        cycleAggregate (pre ++ post) items) ∧
    (∀ (db : List DBRow) (pre post : List (String × AdapterFun)) (nm : String)
      (bad : AdapterFun) (items : List ItemReq),
      (∀ it ∈ items, ∃ e, bad it = Except.error e) →
      runSearchCycle db (pre ++ (nm, bad) :: post) items =
        runSearchCycle db (pre ++ post) items) := by
  have key : ∀ (pre post : List (String × AdapterFun)) (nm : String) (bad : AdapterFun)
      (items : List ItemReq), (∀ it ∈ items, ∃ e, bad it = Except.error e) →
      cycleAggregate (pre ++ (nm, bad) :: post) items =
        cycleAggregate (pre ++ post) items := by
    intro pre post nm bad items hbad
    unfold cycleAggregate
    congr 1
    apply List.map_congr_left
    intro it hit
    obtain ⟨e, he⟩ := hbad it hit
    have hcontrib : adapterContribution bad it = [] := by
      unfold adapterContribution
      rw [he]
    simp [List.map_append, List.flatten_append, hcontrib]
  refine ⟨key, ?_⟩
  intro db pre post nm bad items hbad
  unfold runSearchCycle
  rw [key pre post nm bad items hbad]

/-- Witness for `c8_orchestrator_isolation`: a cycle with a throwing adapter
between two working ones. -/
theorem c8_orchestrator_isolation_witness :
    cycleAggregate
        [("ebay", fun it => Except.ok [⟨"eBay", it.name, "A", some 1, none, some "la"⟩]),
         ("amazon", fun _ => Except.error ()),
         ("walmart", fun it => Except.ok [⟨"Walmart", it.name, "B", some 2, none, some "lb"⟩])]
        [⟨"x", 10, 0⟩] =
      cycleAggregate
        [("ebay", fun it => Except.ok [⟨"eBay", it.name, "A", some 1, none, some "la"⟩]),
         ("walmart", fun it => Except.ok [⟨"Walmart", it.name, "B", some 2, none, some "lb"⟩])]
        [⟨"x", 10, 0⟩] ∧
    runSearchCycle []
        [("ebay", fun it => Except.ok [⟨"eBay", it.name, "A", some 1, none, some "la"⟩]),
         ("amazon", fun _ => Except.error ()),
         ("walmart", fun it => Except.ok [⟨"Walmart", it.name, "B", some 2, none, some "lb"⟩])]
        [⟨"x", 10, 0⟩] =
      runSearchCycle []
        [("ebay", fun it => Except.ok [⟨"eBay", it.name, "A", some 1, none, some "la"⟩]),
         ("walmart", fun it => Except.ok [⟨"Walmart", it.name, "B", some 2, none, some "lb"⟩])]
        [⟨"x", 10, 0⟩] :=
  ⟨c8_orchestrator_isolation.1
     [("ebay", fun it => Except.ok [⟨"eBay", it.name, "A", some 1, none, some "la"⟩])]
     [("walmart", fun it => Except.ok [⟨"Walmart", it.name, "B", some 2, none, some "lb"⟩])]
     "amazon" (fun _ => Except.error ()) [⟨"x", 10, 0⟩] (fun _ _ => ⟨(), rfl⟩),
   c8_orchestrator_isolation.2 []
     [("ebay", fun it => Except.ok [⟨"eBay", it.name, "A", some 1, none, some "la"⟩])]
     [("walmart", fun it => Except.ok [⟨"Walmart", it.name, "B", some 2, none, some "lb"⟩])]
     "amazon" (fun _ => Except.error ()) [⟨"x", 10, 0⟩] (fun _ _ => ⟨(), rfl⟩)⟩

/-! ## Claim C9 -/

/-- **C9** (amended).  `read_input_file` yields an empty sequence — not an
error — for a missing, empty or JSON-malformed file; every returned record
has a present `name` and a numerically coerced `max_price`, with
`min_seller_rating` defaulting to `0` when the key is missing; a record whose
`max_price` fails coercion is dropped individually, the rest of the file
still being processed; but — against the original claim, see
`c9_counterexample` — a record whose `min_seller_rating` fails coercion is
not dropped: it is kept with the rating forced to `0.0`. -/
theorem c9_read_input_amended :
    readInputFile .missing = [] ∧
    readInputFile .emptyFile = [] ∧
    readInputFile .badJson = [] ∧
    (∀ (xs : List JVal) (p : ParsedItem), p ∈ readInputFile (.parsed (.jarr xs)) →
      ∃ kvs, JVal.jobj kvs ∈ xs ∧
        List.lookup "name" kvs = some p.name ∧
        (∃ mpV, List.lookup "max_price" kvs = some mpV ∧
          pyFloat mpV = some p.maxPrice) ∧
        (List.lookup "min_seller_rating" kvs = none → p.minSellerRating = 0)) ∧
    (∀ (kvs : List (String × JVal)) (mpV : JVal),
      List.lookup "max_price" kvs = some mpV → pyFloat mpV = none →
      validateEntry (.jobj kvs) = none) ∧
    (∀ (pre post : List JVal) (e : JVal), validateEntry e = none →
      readInputFile (.parsed (.jarr (pre ++ e :: post))) =
        readInputFile (.parsed (.jarr pre)) ++ readInputFile (.parsed (.jarr post))) ∧
    (∀ (kvs : List (String × JVal)) (nameV mpV rv : JVal) (mp : ℚ),
      List.lookup "name" kvs = some nameV →
      List.lookup "max_price" kvs = some mpV → pyFloat mpV = some mp →
      List.lookup "min_seller_rating" kvs = some rv → pyFloat rv = none →
      validateItem kvs = some ⟨nameV, mp, 0⟩) := by
  refine ⟨rfl, rfl, rfl, ?_, ?_, ?_, ?_⟩
  · intro xs p hp
    unfold readInputFile at hp
    obtain ⟨e, he, hv⟩ := List.mem_filterMap.mp hp
    rcases e with _ | b | q | s | ys | kvs
    · exact absurd hv (by simp [validateEntry])
    · exact absurd hv (by simp [validateEntry])
    · exact absurd hv (by simp [validateEntry])
    · exact absurd hv (by simp [validateEntry])
    · exact absurd hv (by simp [validateEntry])
    · replace hv : validateItem kvs = some p := hv
      unfold validateItem at hv
      split at hv
      · rename_i nameV mpV hname hmp
        split at hv
        · exact absurd hv (by simp)
        · rename_i mp hfloat
          have hpe := Option.some.inj hv
          subst hpe
          refine ⟨kvs, he, hname, ⟨mpV, hmp, hfloat⟩, ?_⟩
          intro hnone
          show ratingOf kvs = 0
          unfold ratingOf
          rw [hnone]
          rfl
      · exact absurd hv (by simp)
  · intro kvs mpV hmp hfloat
    show validateItem kvs = none
    unfold validateItem
    rcases hn : List.lookup "name" kvs with _ | nameV
    · rw [hmp]
    · rw [hmp]
      dsimp only
      rw [hfloat]
  · intro pre post e h
    unfold readInputFile
    simp [List.filterMap_append, List.filterMap_cons, h]
  · intro kvs nameV mpV rv mp hname hmp hfloat hrv hrfloat
    unfold validateItem
    rw [hname, hmp]
    dsimp only
    rw [hfloat]
    have : ratingOf kvs = 0 := by
      unfold ratingOf
      rw [hrv]
      dsimp only [Option.getD]
      rw [hrfloat]
    rw [this]

/-- **C9** counterexample.  A record whose `min_seller_rating` fails type
coercion (`"abc"`) is not dropped: it is returned with the rating forced to
`0.0`, against the claim's "every record failing type coercion is dropped
individually". -/
theorem c9_counterexample :
    pyFloat (JVal.jstr "abc") = none ∧
    readInputFile (.parsed (.jarr
      [.jobj [("name", .jstr "x"), ("max_price", .jstr "5"),
        ("min_seller_rating", .jstr "abc")]])) =
      [⟨.jstr "x", 5, 0⟩] :=
  ⟨rfl, rfl⟩

/-- Witness for `c9_read_input_amended` at a concrete input file. -/
theorem c9_read_input_amended_witness :
    (∃ kvs, JVal.jobj kvs ∈
        [JVal.jobj [("name", JVal.jstr "x"), ("max_price", JVal.jnum 7)]] ∧
      List.lookup "name" kvs =
        some (⟨JVal.jstr "x", 7, 0⟩ : ParsedItem).name ∧
      (∃ mpV, List.lookup "max_price" kvs = some mpV ∧
        pyFloat mpV = some (⟨JVal.jstr "x", 7, 0⟩ : ParsedItem).maxPrice) ∧
      (List.lookup "min_seller_rating" kvs = none →
        (⟨JVal.jstr "x", 7, 0⟩ : ParsedItem).minSellerRating = 0)) ∧
    validateEntry (.jobj [("name", JVal.jstr "x"), ("max_price", JVal.jstr "oops")]) =
      none ∧
    readInputFile (.parsed (.jarr
        ([JVal.jobj [("name", JVal.jstr "a"), ("max_price", JVal.jnum 1)]] ++
          JVal.jobj [("name", JVal.jstr "x"), ("max_price", JVal.jstr "oops")] ::
            [JVal.jobj [("name", JVal.jstr "b"), ("max_price", JVal.jnum 2)]]))) =
      readInputFile (.parsed (.jarr
        [JVal.jobj [("name", JVal.jstr "a"), ("max_price", JVal.jnum 1)]])) ++
        readInputFile (.parsed (.jarr
          [JVal.jobj [("name", JVal.jstr "b"), ("max_price", JVal.jnum 2)]])) ∧
    validateItem [("name", JVal.jstr "x"), ("max_price", JVal.jnum 7),
        ("min_seller_rating", JVal.jstr "abc")] =
      some ⟨JVal.jstr "x", 7, 0⟩ :=
  ⟨c9_read_input_amended.2.2.2.1
     [JVal.jobj [("name", JVal.jstr "x"), ("max_price", JVal.jnum 7)]]
     ⟨JVal.jstr "x", 7, 0⟩
     (by
       have h : readInputFile (.parsed (.jarr
           [JVal.jobj [("name", JVal.jstr "x"), ("max_price", JVal.jnum 7)]])) =
           [⟨JVal.jstr "x", 7, 0⟩] := rfl
       rw [h]
       simp),
   c9_read_input_amended.2.2.2.2.1
     [("name", JVal.jstr "x"), ("max_price", JVal.jstr "oops")] (JVal.jstr "oops")
     rfl rfl,
   c9_read_input_amended.2.2.2.2.2.1
     [JVal.jobj [("name", JVal.jstr "a"), ("max_price", JVal.jnum 1)]]
     [JVal.jobj [("name", JVal.jstr "b"), ("max_price", JVal.jnum 2)]]
     (JVal.jobj [("name", JVal.jstr "x"), ("max_price", JVal.jstr "oops")]) rfl,
   c9_read_input_amended.2.2.2.2.2.2
     [("name", JVal.jstr "x"), ("max_price", JVal.jnum 7),
       ("min_seller_rating", JVal.jstr "abc")]
     (JVal.jstr "x") (JVal.jnum 7) (JVal.jstr "abc") 7 rfl rfl rfl rfl rfl⟩

/-! ## Claim C10 -/

/-- **C10**.  For an eBay listing whose price text is a range `A to B` (with
the first `' to '` separator occurring right after `A`), the price of the
emitted result is the cleaned lower bound `A` — the text before the first
`' to '` separator — not `B` and not any combination of the two. -/
theorem c10_ebay_price_range :
    ∀ (it : ItemReq) (L : EbayRaw) (r : ResultDict) (A B : List Char),
      L.priceEl = some (String.mk (A ++ " to ".data ++ B)) →
      (∀ i, i < A.length →
        leadsWith " to ".data ((A ++ " to ".data ++ B).drop i) = false) →
      ebayProcess it L = some r →
      r.price = cleanPrice (String.mk A) := by
  intro it L r A B hpe hfirst h
  obtain ⟨p, l, hp, hl, ht, hr⟩ := ebayProcess_some h
  subst hr
  show some p = cleanPrice (String.mk A)
  rw [← hp]
  unfold ebayExtractPrice ebayPriceText
  rw [hpe]
  dsimp only
  have hfirst' : ∀ i, i < A.length →
      leadsWith [' ', 't', 'o', ' '] (List.drop i (A ++ [' ', 't', 'o', ' '] ++ B)) =
        false := hfirst
  rw [pySplit_first (by decide) hfirst']
  rfl

/-- Witness for `c10_ebay_price_range` at the price text
`"$10.99 to $24.99"`. -/
theorem c10_ebay_price_range_witness :
    (⟨"eBay", "i", "T", some (mkRat 1099 100), none, some "h"⟩ : ResultDict).price =
      cleanPrice (String.mk "$10.99".data) :=
  c10_ebay_price_range ⟨"i", 500, 0⟩
    ⟨some "T", some "T", some "h", some "$10.99 to $24.99", none, false⟩
    ⟨"eBay", "i", "T", some (mkRat 1099 100), none, some "h"⟩
    "$10.99".data "$24.99".data (by decide) (by decide) (by decide)

end DealHunter
